import Mathlib

/-!
Shallow embedding of the likeli-sol prediction-market program
(src/likeli-contracts/programs/likeli-contracts/src/lib.rs) and proofs
about its pricing, matching, rebalancing, conversion, claiming and
configuration logic.

Modelling conventions:
* `u64` / `u128` / `u16` values are modelled as `Nat`.  The program uses
  checked arithmetic (aborting on overflow) and widens to `u128` before
  any multiplication that could overflow, so on inputs where the program
  does not abort the `Nat` model computes the same values.
* The single place the source uses signed arithmetic (the rounding
  compensation in `sync_sibling_pools`, with `i128`/`i64` values and
  Rust's truncating division) is modelled with `Int` and `Int.tdiv`.
* Solana account public keys are modelled as `Nat`.
* `remaining_accounts` (used both as order-matching candidates and as
  NegRisk sibling accounts) is a list of `AccountInfo`: a key, an
  ownership flag (`info.owner == crate::ID`) and a payload that
  deserializes as a `LimitOrder`, as an `Answer`, or as neither.
* Each instruction is a pure function from the pre-state of the accounts
  it touches to `Except LikeliError` of the post-state plus the amounts
  it instructs the token program to transfer.  An `Except.error` result
  models the aborted transaction: no state change is committed.
-/

namespace Likeli

/-- Error codes of the program (`enum LikeliError` in the source);
only the variants reachable from the embedded instructions are listed. -/
inductive LikeliError where
  | QuestionTooLong
  | InvalidResolutionTime
  | InsufficientLiquidity
  | MarketResolved
  | MarketNotResolved
  | InvalidAmount
  | Unauthorized
  | TooEarlyToResolve
  | InvalidPrice
  | InsufficientShares
  | OrderbookFull
  | OrderNotFound
  | FeesTooHigh
  | SlippageExceeded
  | NoWinningShares
  | InvalidAnswerCount
  | InvalidAnswerIndex
  | NotOneWinnerMarket
  | InvalidIndexSet
  | NoConvertiblePositions
  | AnswerAlreadyResolved
  | WinnerAlreadyDeclared
  | TradeTooLarge
  | MissingSiblings
deriving Repr, DecidableEq

/-- Binary market account (`struct Market`).  `question`, timestamps and
the PDA bump carry no arithmetic content and are omitted. -/
structure Market where
  creator : Nat
  yes_pool : Nat
  no_pool : Nat
  total_volume : Nat
  resolved : Bool
  outcome : Bool
  fee_bps : Nat
  creator_fee_bps : Nat
  platform_fee_bps : Nat
  liquidity_fee_bps : Nat
  collected_fees : Nat
deriving Repr, DecidableEq

/-- Multi-choice market account (`struct MultiMarket`). -/
structure MultiMarket where
  creator : Nat
  answer_count : Nat
  is_one_winner : Bool
  volume : Nat
  fee_bps : Nat
  resolution_time : Int
  resolved : Bool
  answers_resolved : Nat
deriving Repr, DecidableEq

/-- Answer account of a multi-choice market (`struct Answer`);
`label_hash` is modelled as a `Nat`. -/
structure Answer where
  market : Nat
  index : Nat
  label_hash : Nat
  yes_pool : Nat
  no_pool : Nat
  volume : Nat
  resolved : Bool
  outcome : Option Bool
deriving Repr, DecidableEq

/-- User position in a binary market (`struct UserPosition`). -/
structure UserPosition where
  owner : Nat
  market : Nat
  yes_shares : Nat
  no_shares : Nat
deriving Repr, DecidableEq

/-- User position in a multi-choice market (`struct MultiPosition`);
the fixed `[u64; 10]` arrays are modelled as length-10 lists. -/
structure MultiPosition where
  owner : Nat
  market : Nat
  yes_shares : List Nat
  no_shares : List Nat
deriving Repr, DecidableEq

/-- Limit order account (`struct LimitOrder`); `created_at`/`expires_at`
are advisory data never read by the embedded logic and are omitted. -/
structure LimitOrder where
  owner : Nat
  market : Nat
  answer_index : Option Nat
  price : Nat
  qty : Nat
  filled_qty : Nat
  is_yes : Bool
  is_bid : Bool
deriving Repr, DecidableEq

/-- Orderbook account (`struct Orderbook`): four key lists. -/
structure Orderbook where
  market : Nat
  yes_buy_orders : List Nat
  yes_sell_orders : List Nat
  no_buy_orders : List Nat
  no_sell_orders : List Nat
deriving Repr, DecidableEq

/-- Payload of one entry of `ctx.remaining_accounts`, as seen by the
deserialization attempts in the source: a limit order, an answer, or
something that deserializes as neither. -/
inductive AccountData where
  | order (o : LimitOrder)
  | answer (a : Answer)
  | other
deriving Repr, DecidableEq

/-- One entry of `ctx.remaining_accounts`.  `owned` models the
`info.owner == &crate::ID` check. -/
structure AccountInfo where
  key : Nat
  owned : Bool
  data : AccountData
deriving Repr, DecidableEq

/-- `calculate_fee`: `floor(amount * fee_bps / 10000)` with the
short-circuit for `fee_bps == 0`. -/
def calculate_fee (amount fee_bps : Nat) : Nat :=
  if fee_bps = 0 then 0 else amount * fee_bps / 10000

/-- The pool-implied price in bps, exactly as the `cpmm_price`
computation inlined in `buy_shares`, `sell_shares`, `buy_multi` and
`sell_multi`: the YES price (`outcome = true`) is
`no_pool * 10000 / (yes_pool + no_pool)`, the NO price swaps the pools. -/
def cpmm_price (yes_pool no_pool : Nat) (outcome : Bool) : Nat :=
  if outcome then no_pool * 10000 / (yes_pool + no_pool)
  else yes_pool * 10000 / (yes_pool + no_pool)

/-- `calculate_shares_out`: shares bought from the pool for a net
amount, with the denominator floored at 1. -/
def calculate_shares_out (yes_pool no_pool amount : Nat) (is_yes : Bool) : Nat :=
  if is_yes then amount + amount * yes_pool / (max (no_pool + amount) 1)
  else amount + amount * no_pool / (max (yes_pool + amount) 1)

/-- Total of an answer's two pools. -/
def ansTotal (a : Answer) : Nat := a.yes_pool + a.no_pool

/-- Implied YES probability of an answer in bps,
`no_pool * 10000 / (yes_pool + no_pool)`. -/
def ansPrice (a : Answer) : Nat := a.no_pool * 10000 / ansTotal a

/-- Result of an order-matching attempt (`struct MatchResult`). -/
structure MatchResult where
  filled_amount : Nat
  remaining_amount : Nat
  matched_price : Nat
deriving Repr, DecidableEq

/-- A candidate account is fillable by the request exactly when the
source's skip conditions in `find_matching_orders` all fail: same
market as the orderbook, same `answer_index`, `is_yes` and `is_bid`
both opposite to the request, not yet fully filled, and
price-compatible (`order.price <= limit` for a buy, `>=` for a sell). -/
def orderMatches (obMarket : Nat) (answer_index : Option Nat)
    (is_yes is_buy : Bool) (limit_price : Nat) (o : LimitOrder) : Prop :=
  o.market = obMarket ∧ o.answer_index = answer_index ∧
  o.is_yes ≠ is_yes ∧ o.is_bid ≠ is_buy ∧ o.filled_qty < o.qty ∧
  (if is_buy then o.price ≤ limit_price else limit_price ≤ o.price)

instance (obMarket : Nat) (answer_index : Option Nat)
    (is_yes is_buy : Bool) (limit_price : Nat) (o : LimitOrder) :
    Decidable (orderMatches obMarket answer_index is_yes is_buy limit_price o) := by
  unfold orderMatches; infer_instance

/-- Loop of `find_matching_orders`: walk the caller-supplied candidate
accounts in order, accumulating `filled_amount` and decrementing
`remaining_amount`; each fillable candidate is bumped by
`min remaining (qty - filled_qty)` and written back; accounts that are
not program-owned or do not deserialize as a `LimitOrder` are skipped. -/
def matchLoop (obMarket : Nat) (answer_index : Option Nat)
    (is_yes is_buy : Bool) (limit_price : Nat) :
    List AccountInfo → Nat → Nat → Nat × Nat × List AccountInfo
  | [], filled, remaining => (filled, remaining, [])
  | acc :: rest, filled, remaining =>
    if remaining = 0 then (filled, remaining, acc :: rest)
    else if acc.owned then
      match acc.data with
      | AccountData.order o =>
        if orderMatches obMarket answer_index is_yes is_buy limit_price o then
          let available := o.qty - o.filled_qty
          let to_fill := min remaining available
          let (f, r, rest') := matchLoop obMarket answer_index is_yes is_buy limit_price
            rest (filled + to_fill) (remaining - to_fill)
          (f, r, { acc with data := AccountData.order { o with filled_qty := o.filled_qty + to_fill } } :: rest')
        else
          let (f, r, rest') := matchLoop obMarket answer_index is_yes is_buy limit_price rest filled remaining
          (f, r, acc :: rest')
      | _ =>
        let (f, r, rest') := matchLoop obMarket answer_index is_yes is_buy limit_price rest filled remaining
        (f, r, acc :: rest')
    else
      let (f, r, rest') := matchLoop obMarket answer_index is_yes is_buy limit_price rest filled remaining
      (f, r, acc :: rest')

/-- `find_matching_orders`: greedily fill price-compatible opposite-side
candidates in the caller-presented order; returns the `MatchResult` and
the candidate accounts with their updated `filled_qty`. -/
def find_matching_orders (obMarket : Nat) (answer_index : Option Nat)
    (is_yes is_buy : Bool) (limit_price : Nat)
    (accounts : List AccountInfo) (amount : Nat) : MatchResult × List AccountInfo :=
  let (filled, remaining, accounts') :=
    matchLoop obMarket answer_index is_yes is_buy limit_price accounts 0 amount
  (⟨filled, remaining, limit_price⟩, accounts')

/-- `try_match_against_orderbook` just forwards to
`find_matching_orders` with the pool price as the limit. -/
def try_match_against_orderbook (obMarket : Nat) (answer_index : Option Nat)
    (is_yes is_buy : Bool) (cpmm : Nat)
    (accounts : List AccountInfo) (amount : Nat) : MatchResult × List AccountInfo :=
  find_matching_orders obMarket answer_index is_yes is_buy cpmm accounts amount

/-- Bucket of the orderbook a (is_yes, is_bid) order lives in. -/
def bucketOf (ob : Orderbook) (is_yes is_bid : Bool) : List Nat :=
  match is_yes, is_bid with
  | true, true => ob.yes_buy_orders
  | true, false => ob.yes_sell_orders
  | false, true => ob.no_buy_orders
  | false, false => ob.no_sell_orders

/-- `remove_order_from_book`: remove the first occurrence of the key
from the side's list; report whether something was removed. -/
def remove_order_from_book (ob : Orderbook) (order_key : Nat)
    (is_yes is_bid : Bool) : Orderbook × Bool :=
  match is_yes, is_bid with
  | true, true =>
    if ob.yes_buy_orders.contains order_key then
      ({ ob with yes_buy_orders := ob.yes_buy_orders.erase order_key }, true)
    else (ob, false)
  | true, false =>
    if ob.yes_sell_orders.contains order_key then
      ({ ob with yes_sell_orders := ob.yes_sell_orders.erase order_key }, true)
    else (ob, false)
  | false, true =>
    if ob.no_buy_orders.contains order_key then
      ({ ob with no_buy_orders := ob.no_buy_orders.erase order_key }, true)
    else (ob, false)
  | false, false =>
    if ob.no_sell_orders.contains order_key then
      ({ ob with no_sell_orders := ob.no_sell_orders.erase order_key }, true)
    else (ob, false)

/-- `cancel_order`: the account constraint `order.owner == owner.key()`
(modelled by the `caller` argument), then removal by identity from the
book, failing with `OrderNotFound` if the key is not listed. -/
def cancel_order (caller : Nat) (order : LimitOrder) (order_key : Nat)
    (ob : Orderbook) : Except LikeliError Orderbook :=
  if caller ≠ order.owner then Except.error LikeliError.Unauthorized
  else
    let (ob', removed) := remove_order_from_book ob order_key order.is_yes order.is_bid
    if removed then Except.ok ob' else Except.error LikeliError.OrderNotFound

/-- `place_order`: validate, match against the caller-supplied
candidates, then rest the unmatched remainder in the bucket (capacity
100) -- but only when not fully filled at placement.  Returns the new
order, the updated book and the updated candidate accounts. -/
def place_order (marketKey owner order_key : Nat) (m : Market) (ob : Orderbook)
    (accounts : List AccountInfo) (answer_index : Option Nat)
    (price qty : Nat) (is_yes is_bid : Bool) :
    Except LikeliError (LimitOrder × Orderbook × List AccountInfo) :=
  if m.resolved then Except.error LikeliError.MarketResolved
  else if qty = 0 then Except.error LikeliError.InvalidAmount
  else if ¬(0 < price ∧ price < 10000) then Except.error LikeliError.InvalidPrice
  else
    let (mr, accounts') :=
      find_matching_orders marketKey answer_index is_yes is_bid price accounts qty
    let order : LimitOrder :=
      { owner := owner, market := marketKey, answer_index := answer_index,
        price := price, qty := qty, filled_qty := mr.filled_amount,
        is_yes := is_yes, is_bid := is_bid }
    if order.filled_qty < order.qty then
      if (bucketOf ob is_yes is_bid).length < 100 then
        let ob' :=
          match is_yes, is_bid with
          | true, true => { ob with yes_buy_orders := ob.yes_buy_orders ++ [order_key] }
          | true, false => { ob with yes_sell_orders := ob.yes_sell_orders ++ [order_key] }
          | false, true => { ob with no_buy_orders := ob.no_buy_orders ++ [order_key] }
          | false, false => { ob with no_sell_orders := ob.no_sell_orders ++ [order_key] }
        Except.ok (order, ob', accounts')
      else Except.error LikeliError.OrderbookFull
    else Except.ok (order, ob, accounts')

/-- First half of `sync_sibling_pools`'s loop body: an account
contributes as a sibling iff its key differs from the traded answer's,
it is program-owned, it deserializes as an `Answer` of the same market,
and its total pool is positive. -/
def validSibling (current_key market_key : Nat) (acc : AccountInfo) : Option Answer :=
  if acc.key = current_key then none
  else if acc.owned then
    match acc.data with
    | AccountData.answer a =>
      if a.market = market_key ∧ 0 < ansTotal a then some a else none
    | _ => none
  else none

/-- The `other_answers` vector collected by `sync_sibling_pools`. -/
def extractSiblings (current_key market_key : Nat) (accounts : List AccountInfo) : List Answer :=
  accounts.filterMap (validSibling current_key market_key)

/-- Body of the redistribution loop of `sync_sibling_pools` for one
sibling: proportional new probability (with the `others_old_prob_sum = 0`
fallback to the whole target), then pools recomputed preserving the
total: `new_no = total * new_p / 10000`, `new_yes = total - new_no`. -/
def rebalanceSibling (target oldSum : Nat) (a : Answer) : Answer :=
  let t := ansTotal a
  let new_p := if 0 < oldSum then ansPrice a * target / oldSum else target
  let new_no := t * new_p / 10000
  { a with no_pool := new_no, yes_pool := t - new_no }

/-- The rounding-compensation step of `sync_sibling_pools` applied to
the last-processed sibling: when `0 < |target - actualSum| < 100`, nudge
`no_pool` by `(last_total * error) tdiv 10000` (Rust `i128` division
truncates toward zero), clamped at zero, and recompute `yes_pool` by
saturating subtraction from the remembered total. -/
def applyRoundingFix (target actualSum lastTotal : Nat) (a : Answer) : Answer :=
  let rounding_error : Int := (target : Int) - (actualSum : Int)
  if 0 < rounding_error.natAbs ∧ rounding_error.natAbs < 100 then
    let adjustment : Int := Int.tdiv ((lastTotal : Int) * rounding_error) 10000
    let new_no : Nat := (max ((a.no_pool : Int) + adjustment) 0).toNat
    { a with no_pool := new_no, yes_pool := lastTotal - new_no }
  else a

/-- Replace the last element of a list by its image under `g`. -/
def updateLast (g : Answer → Answer) : List Answer → List Answer
  | [] => []
  | [a] => [g a]
  | a :: b :: rest => a :: updateLast g (b :: rest)

/-- Fallback answer used only as the default of `List.getLastD` on
lists already known to be nonempty. -/
def noAnswer : Answer :=
  { market := 0, index := 0, label_hash := 0, yes_pool := 0, no_pool := 0,
    volume := 0, resolved := false, outcome := none }

/-- Second half of `sync_sibling_pools`: given the collected valid
siblings, redistribute the probability budget `10000 - new_price`
proportionally, then apply the rounding compensation to the
last-processed sibling.  Returns the new states of the valid siblings,
in presentation order. -/
def processedSiblings (new_price : Nat) (others : List Answer) : List Answer :=
  match others with
  | [] => []
  | _ :: _ =>
    let oldSum := (others.map ansPrice).sum
    let target := 10000 - new_price
    let processed := others.map (rebalanceSibling target oldSum)
    let actualSum := (processed.map ansPrice).sum
    let lastTotal := ansTotal (others.getLastD noAnswer)
    updateLast (applyRoundingFix target actualSum lastTotal) processed

/-- Write the new sibling states back into the account list, replacing
each valid sibling in order (the source serializes each updated sibling
into its own account). -/
def writeBackSiblings (current_key market_key : Nat) :
    List AccountInfo → List Answer → List AccountInfo
  | [], _ => []
  | acc :: rest, news =>
    if (validSibling current_key market_key acc).isSome then
      match news with
      | n :: ns =>
        { acc with data := AccountData.answer n } :: writeBackSiblings current_key market_key rest ns
      | [] => acc :: writeBackSiblings current_key market_key rest []
    else acc :: writeBackSiblings current_key market_key rest news

/-- `sync_sibling_pools`: require at least `expected_sibling_count`
accounts, collect the valid siblings, no-op when none, otherwise
redistribute and write back. -/
def sync_sibling_pools (current_key new_price market_key expected_sibling_count : Nat)
    (accounts : List AccountInfo) : Except LikeliError (List AccountInfo) :=
  if accounts.length < expected_sibling_count then
    Except.error LikeliError.MissingSiblings
  else
    let others := extractSiblings current_key market_key accounts
    match others with
    | [] => Except.ok accounts
    | _ :: _ =>
      Except.ok (writeBackSiblings current_key market_key accounts
        (processedSiblings new_price others))

/-- `rebalance_market`: manual NegRisk rebalance, one-winner markets
only; passes the presented answer's current YES probability to
`sync_sibling_pools` with `answer_count - 1` expected siblings. -/
def rebalance_market (marketKey ansKey : Nat) (m : MultiMarket) (ans : Answer)
    (accounts : List AccountInfo) : Except LikeliError (List AccountInfo) :=
  if ¬m.is_one_winner then Except.error LikeliError.NotOneWinnerMarket
  else
    let current_price := ans.no_pool * 10000 / ansTotal ans
    sync_sibling_pools ansKey current_price marketKey (m.answer_count - 1) accounts

/-- Result of a successful `buy_shares`. -/
structure BuyResult where
  market : Market
  position : UserPosition
  accounts : List AccountInfo
  total_shares : Nat
deriving Repr, DecidableEq

/-- `buy_shares`: fee off the top, match the net amount against the
caller-supplied candidates at the pre-trade pool price, credit the
matched portion at that price, push the remainder through
`calculate_shares_out` and add it to the opposite pool, then the
slippage check and the position/volume updates. -/
def buy_shares (marketKey buyer : Nat) (m : Market) (pos : UserPosition)
    (accounts : List AccountInfo) (outcome : Bool) (amount min_shares_out : Nat) :
    Except LikeliError BuyResult :=
  if m.resolved then Except.error LikeliError.MarketResolved
  else if amount = 0 then Except.error LikeliError.InvalidAmount
  else
    let fee := calculate_fee amount m.fee_bps
    let amount_after_fee := amount - fee
    let m1 := { m with collected_fees := m.collected_fees + fee }
    let price := cpmm_price m1.yes_pool m1.no_pool outcome
    let mres :=
      try_match_against_orderbook marketKey none outcome true price accounts amount_after_fee
    let mr := mres.1
    let accounts' := mres.2
    let matched_shares :=
      if 0 < mr.filled_amount then mr.filled_amount * 10000 / (max price 1) else 0
    let step :=
      if 0 < mr.remaining_amount then
        let s := calculate_shares_out m1.yes_pool m1.no_pool mr.remaining_amount outcome
        if outcome then ({ m1 with no_pool := m1.no_pool + mr.remaining_amount }, s)
        else ({ m1 with yes_pool := m1.yes_pool + mr.remaining_amount }, s)
      else (m1, 0)
    let m2 := step.1
    let pool_shares := step.2
    let total_shares := matched_shares + pool_shares
    if total_shares < min_shares_out then Except.error LikeliError.SlippageExceeded
    else
      let pos' :=
        if outcome then { pos with yes_shares := pos.yes_shares + total_shares }
        else { pos with no_shares := pos.no_shares + total_shares }
      let pos'' := { pos' with owner := buyer, market := marketKey }
      let m3 := { m2 with total_volume := m2.total_volume + amount }
      Except.ok ⟨m3, pos'', accounts', total_shares⟩

/-- Result of a successful `sell_shares`: the payout is the amount the
vault transfers to the seller after the fee. -/
structure SellResult where
  market : Market
  position : UserPosition
  accounts : List AccountInfo
  final_payout : Nat
deriving Repr, DecidableEq

/-- `sell_shares`: share-balance check, match against the candidates at
the pre-trade pool price, pay the matched portion at that price, pay
the remainder by the pool formula `shares * opposite / (same + shares)`
and remove it from the opposite pool, then fee, slippage and updates. -/
def sell_shares (marketKey : Nat) (m : Market) (pos : UserPosition)
    (accounts : List AccountInfo) (outcome : Bool) (shares_to_sell min_payout : Nat) :
    Except LikeliError SellResult :=
  if m.resolved then Except.error LikeliError.MarketResolved
  else if shares_to_sell = 0 then Except.error LikeliError.InvalidAmount
  else if (if outcome then pos.yes_shares < shares_to_sell else pos.no_shares < shares_to_sell) then
    Except.error LikeliError.InsufficientShares
  else
    let price := cpmm_price m.yes_pool m.no_pool outcome
    let mres :=
      try_match_against_orderbook marketKey none outcome false price accounts shares_to_sell
    let mr := mres.1
    let accounts' := mres.2
    let matched_payout :=
      if 0 < mr.filled_amount then mr.filled_amount * price / 10000 else 0
    let step :=
      if 0 < mr.remaining_amount then
        let payout :=
          if outcome then mr.remaining_amount * m.no_pool / (m.yes_pool + mr.remaining_amount)
          else mr.remaining_amount * m.yes_pool / (m.no_pool + mr.remaining_amount)
        if outcome then ({ m with no_pool := m.no_pool - payout }, payout)
        else ({ m with yes_pool := m.yes_pool - payout }, payout)
      else (m, 0)
    let m1 := step.1
    let pool_payout := step.2
    let total_payout := matched_payout + pool_payout
    let fee := calculate_fee total_payout m.fee_bps
    let final_payout := total_payout - fee
    let m2 := { m1 with collected_fees := m1.collected_fees + fee }
    if final_payout < min_payout then Except.error LikeliError.SlippageExceeded
    else
      let pos' :=
        if outcome then { pos with yes_shares := pos.yes_shares - shares_to_sell }
        else { pos with no_shares := pos.no_shares - shares_to_sell }
      let m3 := { m2 with total_volume := m2.total_volume + final_payout }
      Except.ok ⟨m3, pos', accounts', final_payout⟩

/-- Result of a successful `buy_multi`. -/
structure BuyMultiResult where
  market : MultiMarket
  answer : Answer
  position : MultiPosition
  accounts : List AccountInfo
  total_shares : Nat
deriving Repr, DecidableEq

/-- `buy_multi`: like `buy_shares` on one answer, with the additional
25%-of-pool trade-size guard and, on one-winner markets, the NegRisk
resync of the sibling pools before the slippage check. -/
def buy_multi (marketKey ansKey buyer : Nat) (m : MultiMarket) (ans : Answer)
    (pos : MultiPosition) (accounts : List AccountInfo)
    (outcome : Bool) (amount min_shares_out : Nat) :
    Except LikeliError BuyMultiResult :=
  if m.resolved then Except.error LikeliError.MarketResolved
  else if amount = 0 then Except.error LikeliError.InvalidAmount
  else if ansTotal ans / 4 < amount then Except.error LikeliError.TradeTooLarge
  else
    let fee := calculate_fee amount m.fee_bps
    let amount_after_fee := amount - fee
    let price := cpmm_price ans.yes_pool ans.no_pool outcome
    let mres :=
      try_match_against_orderbook marketKey (some ans.index) outcome true price
        accounts amount_after_fee
    let mr := mres.1
    let accounts' := mres.2
    let matched_shares :=
      if 0 < mr.filled_amount then mr.filled_amount * 10000 / (max price 1) else 0
    let step :=
      if 0 < mr.remaining_amount then
        let s := calculate_shares_out ans.yes_pool ans.no_pool mr.remaining_amount outcome
        if outcome then ({ ans with no_pool := ans.no_pool + mr.remaining_amount }, s)
        else ({ ans with yes_pool := ans.yes_pool + mr.remaining_amount }, s)
      else (ans, 0)
    let ans1 := step.1
    let pool_shares := step.2
    let total_shares := matched_shares + pool_shares
    let syncRes :=
      if m.is_one_winner then
        let new_price := cpmm_price ans1.yes_pool ans1.no_pool outcome
        sync_sibling_pools ansKey new_price marketKey (m.answer_count - 1) accounts'
      else Except.ok accounts'
    match syncRes with
    | Except.error e => Except.error e
    | Except.ok accounts'' =>
      if total_shares < min_shares_out then Except.error LikeliError.SlippageExceeded
      else
        let idx := ans1.index
        let pos' :=
          if outcome then
            { pos with yes_shares := pos.yes_shares.set idx (pos.yes_shares.getD idx 0 + total_shares) }
          else
            { pos with no_shares := pos.no_shares.set idx (pos.no_shares.getD idx 0 + total_shares) }
        let pos'' := { pos' with owner := buyer, market := marketKey }
        let ans2 := { ans1 with volume := ans1.volume + amount }
        let m1 := { m with volume := m.volume + amount }
        Except.ok ⟨m1, ans2, pos'', accounts'', total_shares⟩

/-- Result of a successful `sell_multi`. -/
structure SellMultiResult where
  market : MultiMarket
  answer : Answer
  position : MultiPosition
  accounts : List AccountInfo
  final_payout : Nat
deriving Repr, DecidableEq

/-- `sell_multi`: like `sell_shares` on one answer plus the NegRisk
resync on one-winner markets.  Note the source has no trade-size guard
on this path. -/
def sell_multi (marketKey ansKey : Nat) (m : MultiMarket) (ans : Answer)
    (pos : MultiPosition) (accounts : List AccountInfo)
    (outcome : Bool) (shares_to_sell min_payout : Nat) :
    Except LikeliError SellMultiResult :=
  if m.resolved then Except.error LikeliError.MarketResolved
  else if shares_to_sell = 0 then Except.error LikeliError.InvalidAmount
  else
    let idx := ans.index
    if (if outcome then pos.yes_shares.getD idx 0 < shares_to_sell
        else pos.no_shares.getD idx 0 < shares_to_sell) then
      Except.error LikeliError.InsufficientShares
    else
      let price := cpmm_price ans.yes_pool ans.no_pool outcome
      let mres :=
        try_match_against_orderbook marketKey (some ans.index) outcome false price
          accounts shares_to_sell
      let mr := mres.1
      let accounts' := mres.2
      let matched_payout :=
        if 0 < mr.filled_amount then mr.filled_amount * price / 10000 else 0
      let step :=
        if 0 < mr.remaining_amount then
          let payout :=
            if outcome then mr.remaining_amount * ans.no_pool / (ans.yes_pool + mr.remaining_amount)
            else mr.remaining_amount * ans.yes_pool / (ans.no_pool + mr.remaining_amount)
          if outcome then ({ ans with no_pool := ans.no_pool - payout }, payout)
          else ({ ans with yes_pool := ans.yes_pool - payout }, payout)
        else (ans, 0)
      let ans1 := step.1
      let pool_payout := step.2
      let total_payout := matched_payout + pool_payout
      let syncRes :=
        if m.is_one_winner then
          let new_price := cpmm_price ans1.yes_pool ans1.no_pool outcome
          sync_sibling_pools ansKey new_price marketKey (m.answer_count - 1) accounts'
        else Except.ok accounts'
      match syncRes with
      | Except.error e => Except.error e
      | Except.ok accounts'' =>
        let fee := calculate_fee total_payout m.fee_bps
        let final_payout := total_payout - fee
        if final_payout < min_payout then Except.error LikeliError.SlippageExceeded
        else
          let pos' :=
            if outcome then
              { pos with yes_shares := pos.yes_shares.set idx (pos.yes_shares.getD idx 0 - shares_to_sell) }
            else
              { pos with no_shares := pos.no_shares.set idx (pos.no_shares.getD idx 0 - shares_to_sell) }
          let ans2 := { ans1 with volume := ans1.volume + final_payout }
          let m1 := { m with volume := m.volume + final_payout }
          Except.ok ⟨m1, ans2, pos', accounts'', final_payout⟩

/-- `claim_winnings_with_vault` (binary): after resolution, the winning
side's share count is the payout (1:1 with collateral); both share
fields are zeroed in the committed position state before the vault
transfer of the payout is issued.  Zero winning shares fail with
`NoWinningShares`. -/
def claim_winnings_with_vault (m : Market) (pos : UserPosition) :
    Except LikeliError (UserPosition × Nat) :=
  if ¬m.resolved then Except.error LikeliError.MarketNotResolved
  else
    let winning_shares := if m.outcome then pos.yes_shares else pos.no_shares
    if winning_shares = 0 then Except.error LikeliError.NoWinningShares
    else
      let payout := winning_shares
      Except.ok ({ pos with yes_shares := 0, no_shares := 0 }, payout)

/-- `checked_add(..).unwrap_or(acc)` accumulation used by the
multi-claim loop: on `u64` overflow the addend is silently dropped. -/
def addOrKeep (acc v : Nat) : Nat := if acc + v < 2 ^ 64 then acc + v else acc

/-- `claim_multi_winnings_with_vault`: sums the YES shares of all ten
slots -- regardless of which answers resolved YES -- zeroes every slot
of both arrays, and transfers that sum; a zero sum fails with
`NoWinningShares`. -/
def claim_multi_winnings_with_vault (m : MultiMarket) (pos : MultiPosition) :
    Except LikeliError (MultiPosition × Nat) :=
  if ¬m.resolved then Except.error LikeliError.MarketNotResolved
  else
    let total_payout := pos.yes_shares.foldl addOrKeep 0
    let pos' := { pos with yes_shares := List.replicate 10 0, no_shares := List.replicate 10 0 }
    if total_payout = 0 then Except.error LikeliError.NoWinningShares
    else Except.ok (pos', total_payout)

/-- `count_ones` of a `u16` bitmask. -/
def popcount16 (n : Nat) : Nat := ((List.range 16).filter n.testBit).length

/-- Apply `f i v` to each list entry whose index (starting at `start`)
satisfies the guard built into `f`; models the per-index update loops of
`convert_positions`. -/
def mapIdxFrom (f : Nat → Nat → Nat) : Nat → List Nat → List Nat
  | _, [] => []
  | i, v :: vs => f i v :: mapIdxFrom f (i + 1) vs

/-- Result of a successful `convert_positions`: the updated position,
the collateral transferred from the vault to the user, and the fee
transferred from the vault to the fee vault. -/
structure ConvertResult where
  position : MultiPosition
  collateral_out : Nat
  fee_out : Nat
deriving Repr, DecidableEq

/-- `convert_positions`: one-winner markets only; for a non-zero
`index_set` inside `answer_count` bits, burn `amount` NO from each
set-bit answer, mint `amount - fee` YES to each cleared-bit answer
(indices below `answer_count`), and release
`(popcount - 1) * (amount - fee)` collateral; `amount = 0` returns
success before touching anything. -/
def convert_positions (m : MultiMarket) (pos : MultiPosition)
    (index_set amount : Nat) : Except LikeliError ConvertResult :=
  if ¬m.is_one_winner then Except.error LikeliError.NotOneWinnerMarket
  else if m.resolved then Except.error LikeliError.MarketResolved
  else if index_set = 0 then Except.error LikeliError.InvalidIndexSet
  else if index_set >>> m.answer_count ≠ 0 then Except.error LikeliError.InvalidIndexSet
  else if amount = 0 then Except.ok ⟨pos, 0, 0⟩
  else
    let question_count := m.answer_count
    let no_count := popcount16 index_set
    if no_count < 1 then Except.error LikeliError.NoConvertiblePositions
    else if ¬(List.range question_count).all
        (fun i => !index_set.testBit i || decide (amount ≤ pos.no_shares.getD i 0)) then
      Except.error LikeliError.InsufficientShares
    else
      let fee := calculate_fee amount m.fee_bps
      let amount_after_fee := amount - fee
      let no_shares' := mapIdxFrom
        (fun i v => if i < question_count ∧ index_set.testBit i then v - amount else v)
        0 pos.no_shares
      let yes_shares' := mapIdxFrom
        (fun i v => if i < question_count ∧ ¬index_set.testBit i then v + amount_after_fee else v)
        0 pos.yes_shares
      let collateral_out := (no_count - 1) * amount_after_fee
      let total_fee := fee * (no_count - 1)
      Except.ok ⟨{ pos with no_shares := no_shares', yes_shares := yes_shares' },
        collateral_out, total_fee⟩

/-- `set_market_fees`: creator-only; rejects when the four fee
categories sum to more than 1000 bps, otherwise stores all four. -/
def set_market_fees (caller : Nat) (m : Market)
    (fee_bps creator_fee_bps platform_fee_bps liquidity_fee_bps : Nat) :
    Except LikeliError Market :=
  if caller ≠ m.creator then Except.error LikeliError.Unauthorized
  else if 1000 < fee_bps + creator_fee_bps + platform_fee_bps + liquidity_fee_bps then
    Except.error LikeliError.FeesTooHigh
  else
    Except.ok { m with
                fee_bps := fee_bps, creator_fee_bps := creator_fee_bps,
                platform_fee_bps := platform_fee_bps,
                liquidity_fee_bps := liquidity_fee_bps }

/-- `set_multi_market_config`: creator-only; stores the flag, the fee
and the resolution time with no validation of the fee value. -/
def set_multi_market_config (caller : Nat) (m : MultiMarket)
    (is_one_winner : Bool) (fee_bps : Nat) (resolution_time : Int) :
    Except LikeliError MultiMarket :=
  if caller ≠ m.creator then Except.error LikeliError.Unauthorized
  else
    Except.ok { m with
                is_one_winner := is_one_winner, fee_bps := fee_bps,
                resolution_time := resolution_time }

/-- Read every account that carries an `Answer` payload. -/
def answersOf (accounts : List AccountInfo) : List Answer :=
  accounts.filterMap (fun acc =>
    match acc.data with
    | AccountData.answer a => some a
    | _ => none)

/-! ## General lemmas -/

theorem ansPrice_le_10000 (a : Answer) : ansPrice a ≤ 10000 := by
  unfold ansPrice ansTotal
  rcases Nat.eq_zero_or_pos (a.yes_pool + a.no_pool) with h | h
  · simp [h]
  · calc a.no_pool * 10000 / (a.yes_pool + a.no_pool)
        ≤ (a.yes_pool + a.no_pool) * 10000 / (a.yes_pool + a.no_pool) :=
          Nat.div_le_div_right (Nat.mul_le_mul_right _ (by omega))
      _ = 10000 := Nat.mul_div_cancel_left _ h

theorem nat_add_div_le (x y S : Nat) : x / S + y / S ≤ (x + y) / S := by
  rcases Nat.eq_zero_or_pos S with h | h
  · simp [h]
  · rw [Nat.le_div_iff_mul_le h, Nat.add_mul]
    exact Nat.add_le_add (Nat.div_mul_le_self x S) (Nat.div_mul_le_self y S)

theorem sum_div_le (l : List Nat) (T S : Nat) :
    (l.map (fun a => a * T / S)).sum ≤ l.sum * T / S := by
  induction l with
  | nil => simp
  | cons a l ih =>
    simp only [List.map_cons, List.sum_cons]
    calc a * T / S + (l.map (fun a => a * T / S)).sum
        ≤ a * T / S + l.sum * T / S := Nat.add_le_add_left ih _
      _ ≤ (a * T + l.sum * T) / S := nat_add_div_le _ _ _
      _ = (a + l.sum) * T / S := by ring_nf

theorem sum_div_lower (l : List Nat) (T S : Nat) (hS : 0 < S) :
    l.sum * T ≤ S * (l.map (fun a => a * T / S)).sum + l.length * (S - 1) := by
  induction l with
  | nil => simp
  | cons a l ih =>
    simp only [List.map_cons, List.sum_cons, List.length_cons]
    have h1 : a * T ≤ S * (a * T / S) + (S - 1) := by
      have := Nat.div_add_mod (a * T) S
      have := Nat.mod_lt (a * T) hS
      omega
    have h2 : (a + l.sum) * T = a * T + l.sum * T := by ring
    rw [h2]
    calc a * T + l.sum * T
        ≤ (S * (a * T / S) + (S - 1)) + (S * (l.map (fun a => a * T / S)).sum + l.length * (S - 1)) :=
          Nat.add_le_add h1 ih
      _ = S * (a * T / S + (l.map (fun a => a * T / S)).sum) + (l.length + 1) * (S - 1) := by ring

theorem mem_le_map_sum (f : Answer → Nat) (l : List Answer) (x : Answer) (hx : x ∈ l) :
    f x ≤ (l.map f).sum := by
  induction l with
  | nil => cases hx
  | cons a l ih =>
    simp only [List.map_cons, List.sum_cons]
    rcases List.mem_cons.mp hx with rfl | h
    · omega
    · have := ih h; omega

/-! ## Claim C2 -/

/-- Claim C2 counterexample: with `yes_pool = 1`, `no_pool = 2` (a valid
pool state) the YES price plus the NO price is 9999, not 10000, so the
claim as stated is false. -/
theorem c2_price_sum_counterexample :
    cpmm_price 1 2 true + cpmm_price 1 2 false = 9999 ∧
    ¬(cpmm_price 1 2 true + cpmm_price 1 2 false = 10000) := by decide

/-- Claim C2 (amended): for every pool state with positive pools the YES
price plus the NO price is either exactly 10000 or exactly 9999 (one
basis point is lost exactly when the total does not divide
`no_pool * 10000`). -/
theorem c2_price_sum (yes_pool no_pool : Nat) (hy : 0 < yes_pool) (hn : 0 < no_pool) :
    cpmm_price yes_pool no_pool true + cpmm_price yes_pool no_pool false = 10000 ∨
    cpmm_price yes_pool no_pool true + cpmm_price yes_pool no_pool false = 9999 := by
  unfold cpmm_price
  simp only [eq_self_iff_true, if_true, Bool.false_eq_true, if_false]
  have ht : 0 < yes_pool + no_pool := by omega
  have h := Nat.add_div (a := no_pool * 10000) (b := yes_pool * 10000) ht
  have hsum : no_pool * 10000 + yes_pool * 10000 = (yes_pool + no_pool) * 10000 := by ring
  rw [hsum, Nat.mul_div_cancel_left _ ht] at h
  split at h <;> omega

/-- Witness for `c2_price_sum` at `yes_pool = 3`, `no_pool = 5`. -/
theorem c2_price_sum_witness :
    (0 : Nat) < 3 ∧ (0 : Nat) < 5 ∧
    (cpmm_price 3 5 true + cpmm_price 3 5 false = 10000 ∨
     cpmm_price 3 5 true + cpmm_price 3 5 false = 9999) :=
  ⟨by decide, by decide, c2_price_sum 3 5 (by decide) (by decide)⟩

/-! ## Claim C9 -/

/-- Claim C9 counterexample: `set_multi_market_config` called by the
creator with `fee_bps = 1001` (above the 1000 bps cap) succeeds and
stores the fee, so the claim that every fee-configuration operation
rejects such configurations is false. -/
theorem c9_fee_config_counterexample :
    set_multi_market_config 4 ⟨4, 2, true, 0, 0, 0, false, 0⟩ true 1001 0
      = Except.ok ⟨4, 2, true, 0, 1001, 0, false, 0⟩ := rfl

/-- Claim C9 (amended): `set_market_fees` on binary markets rejects any
configuration whose four fee categories sum to more than 1000 bps
(leaving the stored fees unchanged, since the transaction aborts) and
stores all four otherwise; `set_multi_market_config` stores its fee
with no fee-sum validation at all. -/
theorem c9_fee_validation (caller : Nat) (m : Market) (mm : MultiMarket)
    (f c p l fm : Nat) (b : Bool) (rt : Int)
    (hc : caller = m.creator) (hmc : caller = mm.creator) :
    (1000 < f + c + p + l →
      set_market_fees caller m f c p l = Except.error LikeliError.FeesTooHigh) ∧
    (f + c + p + l ≤ 1000 →
      set_market_fees caller m f c p l =
        Except.ok { m with
                    fee_bps := f, creator_fee_bps := c,
                    platform_fee_bps := p, liquidity_fee_bps := l }) ∧
    set_multi_market_config caller mm b fm rt =
      Except.ok { mm with
                  is_one_winner := b, fee_bps := fm, resolution_time := rt } := by
  unfold set_market_fees set_multi_market_config
  refine ⟨fun h => ?_, fun h => ?_, ?_⟩
  · rw [if_neg (by simp [hc]), if_pos h]
  · rw [if_neg (by simp [hc]), if_neg (by omega)]
  · rw [if_neg (by simp [hmc])]

/-- Witness for `c9_fee_validation` at a concrete market and fees. -/
theorem c9_fee_validation_witness :
    (4 : Nat) = (⟨4, 100, 100, 0, false, false, 0, 0, 0, 0, 0⟩ : Market).creator ∧
    (4 : Nat) = (⟨4, 2, true, 0, 0, 0, false, 0⟩ : MultiMarket).creator ∧
    ((1000 < 600 + 600 + 0 + 0 →
      set_market_fees 4 ⟨4, 100, 100, 0, false, false, 0, 0, 0, 0, 0⟩ 600 600 0 0 =
        Except.error LikeliError.FeesTooHigh) ∧
     (600 + 600 + 0 + 0 ≤ 1000 →
      set_market_fees 4 ⟨4, 100, 100, 0, false, false, 0, 0, 0, 0, 0⟩ 600 600 0 0 =
        Except.ok { (⟨4, 100, 100, 0, false, false, 0, 0, 0, 0, 0⟩ : Market) with
                    fee_bps := 600, creator_fee_bps := 600,
                    platform_fee_bps := 0, liquidity_fee_bps := 0 }) ∧
     set_multi_market_config 4 ⟨4, 2, true, 0, 0, 0, false, 0⟩ false 250 7 =
      Except.ok { (⟨4, 2, true, 0, 0, 0, false, 0⟩ : MultiMarket) with
                  is_one_winner := false, fee_bps := 250, resolution_time := 7 }) :=
  ⟨rfl, rfl,
    c9_fee_validation 4 ⟨4, 100, 100, 0, false, false, 0, 0, 0, 0, 0⟩
      ⟨4, 2, true, 0, 0, 0, false, 0⟩ 600 600 0 0 250 false 7 rfl rfl⟩

/-! ## Claim C8 -/

/-- Claim C8 counterexample: a `sell_multi` of 600 shares on an answer
with a 2000-unit total pool (more than 25% of it) succeeds, so the
claim that every multi-outcome trade above 25% of the pool is rejected
is false. -/
theorem c8_trade_size_counterexample :
    (2000 : Nat) / 4 < 600 ∧
    sell_multi 1 2 ⟨0, 2, false, 0, 0, 0, false, 0⟩
      ⟨1, 0, 0, 1000, 1000, 0, false, none⟩
      ⟨9, 1, [600, 0, 0, 0, 0, 0, 0, 0, 0, 0], [0, 0, 0, 0, 0, 0, 0, 0, 0, 0]⟩
      [] true 600 0
    = Except.ok ⟨⟨0, 2, false, 375, 0, 0, false, 0⟩,
        ⟨1, 0, 0, 1000, 625, 375, false, none⟩,
        ⟨9, 1, [0, 0, 0, 0, 0, 0, 0, 0, 0, 0], [0, 0, 0, 0, 0, 0, 0, 0, 0, 0]⟩,
        [], 375⟩ := ⟨by decide, rfl⟩

/-- Claim C8 (amended): `buy_multi` rejects any trade whose amount
exceeds 25% of the answer's total pool with `TradeTooLarge` (the
transaction aborts, so no state changes); `sell_multi` has no such
guard (the 600-of-2000 sell above succeeds), and neither does binary
`buy_shares` (a 600 buy on a 2000-unit binary pool succeeds). -/
theorem c8_buy_multi_guard (marketKey ansKey buyer : Nat) (m : MultiMarket)
    (ans : Answer) (pos : MultiPosition) (accounts : List AccountInfo)
    (outcome : Bool) (amount min_shares_out : Nat)
    (hres : m.resolved = false) (hamt : 0 < amount)
    (hbig : ansTotal ans / 4 < amount) :
    buy_multi marketKey ansKey buyer m ans pos accounts outcome amount min_shares_out
      = Except.error LikeliError.TradeTooLarge ∧
    (∃ res, sell_multi 1 2 ⟨0, 2, false, 0, 0, 0, false, 0⟩
      ⟨1, 0, 0, 1000, 1000, 0, false, none⟩
      ⟨9, 1, [600, 0, 0, 0, 0, 0, 0, 0, 0, 0], [0, 0, 0, 0, 0, 0, 0, 0, 0, 0]⟩
      [] true 600 0 = Except.ok res) ∧
    (∃ res, buy_shares 1 9 ⟨0, 1000, 1000, 0, false, false, 0, 0, 0, 0, 0⟩
      ⟨9, 1, 0, 0⟩ [] true 600 0 = Except.ok res) := by
  refine ⟨?_, ⟨_, rfl⟩, ⟨_, rfl⟩⟩
  unfold buy_multi
  simp [hres, hbig, Nat.pos_iff_ne_zero.mp hamt]

/-- Witness for `c8_buy_multi_guard`: a 600 buy on a 2000-unit
multi-outcome pool is rejected. -/
theorem c8_buy_multi_guard_witness :
    (⟨0, 2, false, 0, 0, 0, false, 0⟩ : MultiMarket).resolved = false ∧
    (0 : Nat) < 600 ∧
    ansTotal ⟨1, 0, 0, 1000, 1000, 0, false, none⟩ / 4 < 600 ∧
    buy_multi 1 2 9 ⟨0, 2, false, 0, 0, 0, false, 0⟩
      ⟨1, 0, 0, 1000, 1000, 0, false, none⟩
      ⟨9, 1, [0, 0, 0, 0, 0, 0, 0, 0, 0, 0], [0, 0, 0, 0, 0, 0, 0, 0, 0, 0]⟩
      [] true 600 0 = Except.error LikeliError.TradeTooLarge :=
  ⟨rfl, by decide, by decide,
    (c8_buy_multi_guard 1 2 9 ⟨0, 2, false, 0, 0, 0, false, 0⟩
      ⟨1, 0, 0, 1000, 1000, 0, false, none⟩
      ⟨9, 1, [0, 0, 0, 0, 0, 0, 0, 0, 0, 0], [0, 0, 0, 0, 0, 0, 0, 0, 0, 0]⟩
      [] true 600 0 rfl (by decide) (by decide)).1⟩

/-! ## Claim C6 -/

/-- Claim C6 failing input, evaluated: on a fully resolved two-answer
one-winner market, a position holding 100 YES shares on answer 0 is
paid 100 by `claim_multi_winnings_with_vault` even though answer 0 can
have resolved NO -- the function never reads the answers' outcomes, so
losing-side YES holdings are paid as if they had won, contradicting the
source's own comment that only winning answers' YES shares pay out. -/
theorem c6_multi_claim_ignores_outcomes :
    claim_multi_winnings_with_vault ⟨0, 2, true, 0, 0, 0, true, 2⟩
      ⟨9, 1, [100, 0, 0, 0, 0, 0, 0, 0, 0, 0], [0, 0, 0, 0, 0, 0, 0, 0, 0, 0]⟩
    = Except.ok (⟨9, 1, List.replicate 10 0, List.replicate 10 0⟩, 100) := rfl

/-! ## Claim C7 -/

theorem contains_iff_mem (l : List Nat) (a : Nat) : l.contains a = true ↔ a ∈ l := by
  induction l with
  | nil => simp
  | cons b l ih => simp [List.contains_cons, ih]

/-- Claim C7 counterexample: a resting order that was later fully
filled by the matching engine (`filled_qty = qty = 50`) is still listed
in the orderbook, so the owner's `cancel_order` succeeds as a
cancellation instead of reporting `OrderNotFound`; the claim as stated
is false.  (The state is reachable: place a YES sell at 4000 that rests
unfilled, then let a NO buy match all 50 units -- matching bumps
`filled_qty` but never removes the key from the book.) -/
theorem c7_cancel_filled_counterexample :
    cancel_order 3
      ⟨3, 1, none, 4000, 50, 50, true, false⟩ 7
      ⟨1, [], [7], [], []⟩
    = Except.ok ⟨1, [], [], [], []⟩ := rfl

/-- Claim C7 (amended): `cancel_order` reports `OrderNotFound` exactly
when the order's key is absent from its side's book list -- the fill
state of the order itself is never consulted.  In particular an order
fully filled at placement time is never added to the book
(`place_order` leaves the book untouched whenever the new order's
`filled_qty` reached `qty`), so cancelling such an order reports
`OrderNotFound`; an order filled while resting stays listed and its
cancellation succeeds. -/
theorem c7_cancel_not_found (caller key : Nat) (order : LimitOrder) (ob : Orderbook)
    (hown : caller = order.owner) :
    (cancel_order caller order key ob = Except.error LikeliError.OrderNotFound ↔
      key ∉ bucketOf ob order.is_yes order.is_bid) ∧
    (∀ (marketKey owner okey : Nat) (m : Market) (ob0 : Orderbook)
      (accounts : List AccountInfo) (ai : Option Nat) (price qty : Nat) (iy ib : Bool)
      (o : LimitOrder) (ob' : Orderbook) (accs : List AccountInfo),
      place_order marketKey owner okey m ob0 accounts ai price qty iy ib
        = Except.ok (o, ob', accs) →
      o.qty ≤ o.filled_qty → ob' = ob0) := by
  constructor
  · unfold cancel_order remove_order_from_book bucketOf
    rw [if_neg (by simp [hown])]
    cases hy : order.is_yes <;> cases hb : order.is_bid <;>
      · by_cases hc : key ∈ bucketOf ob order.is_yes order.is_bid <;>
          simp_all [bucketOf, contains_iff_mem]
  · intro marketKey owner okey m ob0 accounts ai price qty iy ib o ob' accs h hfull
    unfold place_order at h
    split at h
    · exact absurd h (by simp)
    split at h
    · exact absurd h (by simp)
    split at h
    · exact absurd h (by simp)
    dsimp only at h
    split at h
    · split at h
      · rename_i hlt _
        simp only [Except.ok.injEq, Prod.mk.injEq] at h
        obtain ⟨ho, -, -⟩ := h
        subst ho
        simp only at hlt hfull
        omega
      · exact absurd h (by simp)
    · rename_i hge
      simp only [Except.ok.injEq, Prod.mk.injEq] at h
      obtain ⟨-, hob, -⟩ := h
      exact hob.symm

/-- Witness for `c7_cancel_not_found`: an order whose key 8 is not in
the book; cancelling reports `OrderNotFound`. -/
theorem c7_cancel_not_found_witness :
    (3 : Nat) = (⟨3, 1, none, 4000, 50, 50, true, false⟩ : LimitOrder).owner ∧
    (cancel_order 3 ⟨3, 1, none, 4000, 50, 50, true, false⟩ 8 ⟨1, [], [7], [], []⟩
        = Except.error LikeliError.OrderNotFound ↔
      8 ∉ bucketOf ⟨1, [], [7], [], []⟩ true false) :=
  ⟨rfl, (c7_cancel_not_found 3 8 ⟨3, 1, none, 4000, 50, 50, true, false⟩
    ⟨1, [], [7], [], []⟩ rfl).1⟩

/-! ## Claim C4 -/

theorem matchLoop_filled_acc (obM : Nat) (ai : Option Nat) (iy ib : Bool) (lp : Nat)
    (l : List AccountInfo) : ∀ f r,
    matchLoop obM ai iy ib lp l f r =
      (f + (matchLoop obM ai iy ib lp l 0 r).1,
       (matchLoop obM ai iy ib lp l 0 r).2.1,
       (matchLoop obM ai iy ib lp l 0 r).2.2) := by
  induction l with
  | nil => intro f r; simp [matchLoop]
  | cons acc rest ih =>
    intro f r
    by_cases hr : r = 0
    · subst hr; simp [matchLoop]
    · by_cases ho : acc.owned
      · rcases hd : acc.data with o | a | _
        · by_cases hm : orderMatches obM ai iy ib lp o
          · simp only [matchLoop, hr, if_false, ho, if_true, hd, hm, if_pos, ite_false, ite_true]
            rw [ih (f + min r (o.qty - o.filled_qty)), ih (0 + min r (o.qty - o.filled_qty))]
            simp [Nat.add_assoc]
          · simp only [matchLoop, hr, ho, hd, hm, ite_false, ite_true, if_neg, not_false_iff]
            rw [ih f, ih 0]
        · simp only [matchLoop, hr, ho, hd, ite_false, ite_true]
          rw [ih f, ih 0]
        · simp only [matchLoop, hr, ho, hd, ite_false, ite_true]
          rw [ih f, ih 0]
      · simp only [matchLoop, hr, ho, ite_false, ite_true, Bool.false_eq_true, if_false]
        rw [ih f, ih 0]

/-- Claim C4: the matching engine fills each compatible candidate
(same market, same answer index, opposite `is_yes` and `is_bid`, not
fully filled, price-compatible) by
`min remaining (qty - filled_qty)`, bumping its `filled_qty` by that
amount and continuing down the caller-presented list with the reduced
remainder; and in the concrete scenario of a resting sell of 50 units
at 4000 bps met by a buy of 30 units at any limit of at least 4000
with that order as sole candidate, the order ends with
`filled_qty = 30` and the buy's `remaining_amount = 0`. -/
theorem c4_matching (obM : Nat) (ai : Option Nat) (iy ib : Bool) (lp : Nat) :
    (∀ (acc : AccountInfo) (o : LimitOrder) (rest : List AccountInfo) (amount : Nat),
      acc.owned = true → acc.data = AccountData.order o → amount ≠ 0 →
      orderMatches obM ai iy ib lp o →
      find_matching_orders obM ai iy ib lp (acc :: rest) amount =
        (let to_fill := min amount (o.qty - o.filled_qty)
         let tail := find_matching_orders obM ai iy ib lp rest (amount - to_fill)
         (⟨to_fill + tail.1.filled_amount, tail.1.remaining_amount, lp⟩,
          { acc with data := AccountData.order { o with filled_qty := o.filled_qty + to_fill } } :: tail.2))) ∧
    (∀ limit, 4000 ≤ limit →
      find_matching_orders 1 none true true limit
        [⟨7, true, AccountData.order ⟨3, 1, none, 4000, 50, 0, false, false⟩⟩] 30 =
        (⟨30, 0, limit⟩,
         [⟨7, true, AccountData.order ⟨3, 1, none, 4000, 50, 30, false, false⟩⟩])) := by
  constructor
  · intro acc o rest amount howned hdata hamt hm
    unfold find_matching_orders
    simp only [matchLoop, hamt, ite_false, howned, ite_true, hdata, hm, if_pos]
    rw [matchLoop_filled_acc obM ai iy ib lp rest (0 + min amount (o.qty - o.filled_qty))]
    simp [Nat.zero_add]
  · intro limit hlimit
    unfold find_matching_orders
    have hm : orderMatches 1 none true true limit ⟨3, 1, none, 4000, 50, 0, false, false⟩ := by
      unfold orderMatches
      refine ⟨rfl, rfl, by simp, by simp, by decide, ?_⟩
      simpa using hlimit
    simp [matchLoop, hm]

/-- Witness for `c4_matching` at the concrete 50-at-4000 versus
30-at-limit-4000 scenario. -/
theorem c4_matching_witness :
    (4000 : Nat) ≤ 4000 ∧
    find_matching_orders 1 none true true 4000
      [⟨7, true, AccountData.order ⟨3, 1, none, 4000, 50, 0, false, false⟩⟩] 30 =
      (⟨30, 0, 4000⟩,
       [⟨7, true, AccountData.order ⟨3, 1, none, 4000, 50, 30, false, false⟩⟩]) :=
  ⟨by decide, (c4_matching 1 none true true 4000).2 4000 (by decide)⟩

/-! ## Claim C3 -/

theorem buy_shares_empty_yes (marketKey buyer : Nat) (m : Market) (pos : UserPosition)
    (A : Nat) (hres : m.resolved = false) (hA : A ≠ 0) (hfee : m.fee_bps = 0) :
    buy_shares marketKey buyer m pos [] true A 0 =
      Except.ok ⟨{ m with no_pool := m.no_pool + A, total_volume := m.total_volume + A },
        { pos with owner := buyer, market := marketKey,
                   yes_shares := pos.yes_shares + (A + A * m.yes_pool / max (m.no_pool + A) 1) },
        [], A + A * m.yes_pool / max (m.no_pool + A) 1⟩ := by
  unfold buy_shares try_match_against_orderbook find_matching_orders matchLoop calculate_shares_out
  simp [hres, hA, hfee, calculate_fee, Nat.pos_iff_ne_zero]

theorem buy_shares_empty_no (marketKey buyer : Nat) (m : Market) (pos : UserPosition)
    (A : Nat) (hres : m.resolved = false) (hA : A ≠ 0) (hfee : m.fee_bps = 0) :
    buy_shares marketKey buyer m pos [] false A 0 =
      Except.ok ⟨{ m with yes_pool := m.yes_pool + A, total_volume := m.total_volume + A },
        { pos with owner := buyer, market := marketKey,
                   no_shares := pos.no_shares + (A + A * m.no_pool / max (m.yes_pool + A) 1) },
        [], A + A * m.no_pool / max (m.yes_pool + A) 1⟩ := by
  unfold buy_shares try_match_against_orderbook find_matching_orders matchLoop calculate_shares_out
  simp [hres, hA, hfee, calculate_fee, Nat.pos_iff_ne_zero]

theorem sell_shares_empty_yes (marketKey : Nat) (m : Market) (pos : UserPosition)
    (s : Nat) (hres : m.resolved = false) (hs : s ≠ 0) (hfee : m.fee_bps = 0)
    (hheld : ¬(pos.yes_shares < s)) :
    sell_shares marketKey m pos [] true s 0 =
      Except.ok ⟨{ m with
                   no_pool := m.no_pool - s * m.no_pool / (m.yes_pool + s),
                   total_volume := m.total_volume + s * m.no_pool / (m.yes_pool + s) },
        { pos with yes_shares := pos.yes_shares - s },
        [], s * m.no_pool / (m.yes_pool + s)⟩ := by
  unfold sell_shares try_match_against_orderbook find_matching_orders matchLoop
  simp [hres, hs, hfee, hheld, calculate_fee, Nat.pos_iff_ne_zero]

theorem sell_shares_empty_no (marketKey : Nat) (m : Market) (pos : UserPosition)
    (s : Nat) (hres : m.resolved = false) (hs : s ≠ 0) (hfee : m.fee_bps = 0)
    (hheld : ¬(pos.no_shares < s)) :
    sell_shares marketKey m pos [] false s 0 =
      Except.ok ⟨{ m with
                   yes_pool := m.yes_pool - s * m.yes_pool / (m.no_pool + s),
                   total_volume := m.total_volume + s * m.yes_pool / (m.no_pool + s) },
        { pos with no_shares := pos.no_shares - s },
        [], s * m.yes_pool / (m.no_pool + s)⟩ := by
  unfold sell_shares try_match_against_orderbook find_matching_orders matchLoop
  simp [hres, hs, hfee, hheld, calculate_fee, Nat.pos_iff_ne_zero]

/-- Claim C3: with the whole net amount reaching the pool (no matching
candidates, zero fee), a YES buy of `A` credits exactly
`A + floor(A * yes_pool / max (no_pool + A) 1)` shares and increases
`no_pool` by `A` leaving `yes_pool` unchanged; a YES sell of `s`
unmatched shares pays exactly `floor(s * no_pool / (yes_pool + s))` and
decreases `no_pool` by that payout leaving `yes_pool` unchanged; and
symmetrically for the NO side with the pools swapped. -/
theorem c3_pool_mutation (marketKey buyer : Nat) (m : Market) (pos : UserPosition)
    (A s : Nat) (hres : m.resolved = false) (hfee : m.fee_bps = 0)
    (hA : 0 < A) (hs : 0 < s)
    (hys : s ≤ pos.yes_shares) (hns : s ≤ pos.no_shares) :
    (∃ res, buy_shares marketKey buyer m pos [] true A 0 = Except.ok res ∧
      res.total_shares = A + A * m.yes_pool / max (m.no_pool + A) 1 ∧
      res.market.no_pool = m.no_pool + A ∧ res.market.yes_pool = m.yes_pool) ∧
    (∃ res, buy_shares marketKey buyer m pos [] false A 0 = Except.ok res ∧
      res.total_shares = A + A * m.no_pool / max (m.yes_pool + A) 1 ∧
      res.market.yes_pool = m.yes_pool + A ∧ res.market.no_pool = m.no_pool) ∧
    (∃ res, sell_shares marketKey m pos [] true s 0 = Except.ok res ∧
      res.final_payout = s * m.no_pool / (m.yes_pool + s) ∧
      res.market.no_pool = m.no_pool - s * m.no_pool / (m.yes_pool + s) ∧
      res.market.yes_pool = m.yes_pool) ∧
    (∃ res, sell_shares marketKey m pos [] false s 0 = Except.ok res ∧
      res.final_payout = s * m.yes_pool / (m.no_pool + s) ∧
      res.market.yes_pool = m.yes_pool - s * m.yes_pool / (m.no_pool + s) ∧
      res.market.no_pool = m.no_pool) := by
  refine ⟨⟨_, buy_shares_empty_yes marketKey buyer m pos A hres (by omega) hfee,
      rfl, rfl, rfl⟩,
    ⟨_, buy_shares_empty_no marketKey buyer m pos A hres (by omega) hfee,
      rfl, rfl, rfl⟩,
    ⟨_, sell_shares_empty_yes marketKey m pos s hres (by omega) hfee (by omega),
      rfl, rfl, rfl⟩,
    ⟨_, sell_shares_empty_no marketKey m pos s hres (by omega) hfee (by omega),
      rfl, rfl, rfl⟩⟩

/-- Witness for `c3_pool_mutation` on a 1000/1000 pool with a buy of 50
and a sell of 50. -/
theorem c3_pool_mutation_witness :
    (⟨0, 1000, 1000, 0, false, false, 0, 0, 0, 0, 0⟩ : Market).resolved = false ∧
    (⟨0, 1000, 1000, 0, false, false, 0, 0, 0, 0, 0⟩ : Market).fee_bps = 0 ∧
    (0 : Nat) < 50 ∧ (50 : Nat) ≤ 60 ∧
    (∃ res, buy_shares 1 9 ⟨0, 1000, 1000, 0, false, false, 0, 0, 0, 0, 0⟩
        ⟨9, 1, 60, 60⟩ [] true 50 0 = Except.ok res ∧
      res.total_shares = 50 + 50 * 1000 / max (1000 + 50) 1 ∧
      res.market.no_pool = 1000 + 50 ∧ res.market.yes_pool = 1000) :=
  ⟨rfl, rfl, by decide, by decide,
    (c3_pool_mutation 1 9 ⟨0, 1000, 1000, 0, false, false, 0, 0, 0, 0, 0⟩
      ⟨9, 1, 60, 60⟩ 50 50 rfl rfl (by decide) (by decide) (by decide) (by decide)).1⟩

/-! ## Claim C10 -/

set_option maxHeartbeats 1600000 in
/-- Claim C10: in every successful buy (binary or multi) the
orderbook-matched portion is credited exactly
`floor(filled_amount * 10000 / max cpmm_price 1)` shares, and in every
successful binary sell the matched portion is paid exactly
`floor(filled_amount * cpmm_price / 10000)`, where `cpmm_price` is the
pool-implied price computed from the pools before matching; matched
volume is settled at the pool's pre-trade price, not at the resting
orders' own limit prices (which appear nowhere in the credited
amounts). -/
theorem c10_matched_at_pool_price :
    (∀ (marketKey buyer : Nat) (m : Market) (pos : UserPosition)
       (accounts : List AccountInfo) (outcome : Bool) (amount mso : Nat) (res : BuyResult),
      buy_shares marketKey buyer m pos accounts outcome amount mso = Except.ok res →
      res.total_shares =
        (if 0 < (try_match_against_orderbook marketKey none outcome true
              (cpmm_price m.yes_pool m.no_pool outcome) accounts
              (amount - calculate_fee amount m.fee_bps)).1.filled_amount then
          (try_match_against_orderbook marketKey none outcome true
              (cpmm_price m.yes_pool m.no_pool outcome) accounts
              (amount - calculate_fee amount m.fee_bps)).1.filled_amount * 10000 /
            max (cpmm_price m.yes_pool m.no_pool outcome) 1
         else 0) +
        (if 0 < (try_match_against_orderbook marketKey none outcome true
              (cpmm_price m.yes_pool m.no_pool outcome) accounts
              (amount - calculate_fee amount m.fee_bps)).1.remaining_amount then
          calculate_shares_out m.yes_pool m.no_pool
            (try_match_against_orderbook marketKey none outcome true
              (cpmm_price m.yes_pool m.no_pool outcome) accounts
              (amount - calculate_fee amount m.fee_bps)).1.remaining_amount outcome
         else 0)) ∧
    (∀ (marketKey : Nat) (m : Market) (pos : UserPosition)
       (accounts : List AccountInfo) (outcome : Bool) (shares mp : Nat) (res : SellResult),
      sell_shares marketKey m pos accounts outcome shares mp = Except.ok res →
      res.final_payout =
        (let price := cpmm_price m.yes_pool m.no_pool outcome
         let mr := (try_match_against_orderbook marketKey none outcome false price
           accounts shares).1
         let total := (if 0 < mr.filled_amount then mr.filled_amount * price / 10000 else 0) +
           (if 0 < mr.remaining_amount then
             (if outcome then mr.remaining_amount * m.no_pool / (m.yes_pool + mr.remaining_amount)
              else mr.remaining_amount * m.yes_pool / (m.no_pool + mr.remaining_amount))
            else 0)
         total - calculate_fee total m.fee_bps)) ∧
    (∀ (marketKey ansKey buyer : Nat) (m : MultiMarket) (ans : Answer)
       (pos : MultiPosition) (accounts : List AccountInfo)
       (outcome : Bool) (amount mso : Nat) (res : BuyMultiResult),
      buy_multi marketKey ansKey buyer m ans pos accounts outcome amount mso = Except.ok res →
      res.total_shares =
        (let price := cpmm_price ans.yes_pool ans.no_pool outcome
         let mr := (try_match_against_orderbook marketKey (some ans.index) outcome true price
           accounts (amount - calculate_fee amount m.fee_bps)).1
         (if 0 < mr.filled_amount then mr.filled_amount * 10000 / max price 1 else 0) +
         (if 0 < mr.remaining_amount then
           calculate_shares_out ans.yes_pool ans.no_pool mr.remaining_amount outcome
          else 0))) := by
  refine ⟨?_, ?_, ?_⟩
  · intro marketKey buyer m pos accounts outcome amount mso res h
    unfold buy_shares at h
    dsimp only at h
    repeat' split at h
    all_goals try exact Except.noConfusion h
    all_goals (simp only [Except.ok.injEq] at h; subst h)
    all_goals simp_all
  · intro marketKey m pos accounts outcome shares mp res h
    unfold sell_shares at h
    dsimp only at h
    repeat' split at h
    all_goals try exact Except.noConfusion h
    all_goals (simp only [Except.ok.injEq] at h; subst h)
    all_goals simp_all
  · intro marketKey ansKey buyer m ans pos accounts outcome amount mso res h
    unfold buy_multi at h
    dsimp only at h
    repeat' split at h
    all_goals try exact Except.noConfusion h
    all_goals (simp only [Except.ok.injEq] at h; subst h)
    all_goals simp_all

/-- Witness for `c10_matched_at_pool_price`:  a successful buy against
a single resting opposite-side order at 3000 bps on a 1000/1000 pool
(pool price 5000) is credited at the 5000 bps pool price. -/
theorem c10_matched_at_pool_price_witness :
    buy_shares 1 9 ⟨0, 1000, 1000, 0, false, false, 0, 0, 0, 0, 0⟩ ⟨9, 1, 0, 0⟩
      [⟨7, true, AccountData.order ⟨3, 1, none, 3000, 500, 0, false, false⟩⟩]
      true 100 0
      = Except.ok ⟨⟨0, 1000, 1000, 100, false, false, 0, 0, 0, 0, 0⟩,
          ⟨9, 1, 200, 0⟩,
          [⟨7, true, AccountData.order ⟨3, 1, none, 3000, 500, 100, false, false⟩⟩],
          200⟩ ∧
    (⟨⟨0, 1000, 1000, 100, false, false, 0, 0, 0, 0, 0⟩,
          ⟨9, 1, 200, 0⟩,
          [⟨7, true, AccountData.order ⟨3, 1, none, 3000, 500, 100, false, false⟩⟩],
          200⟩ : BuyResult).total_shares =
        (if 0 < (try_match_against_orderbook 1 none true true
              (cpmm_price 1000 1000 true)
              [⟨7, true, AccountData.order ⟨3, 1, none, 3000, 500, 0, false, false⟩⟩]
              (100 - calculate_fee 100 0)).1.filled_amount then
          (try_match_against_orderbook 1 none true true
              (cpmm_price 1000 1000 true)
              [⟨7, true, AccountData.order ⟨3, 1, none, 3000, 500, 0, false, false⟩⟩]
              (100 - calculate_fee 100 0)).1.filled_amount * 10000 /
            max (cpmm_price 1000 1000 true) 1
         else 0) +
        (if 0 < (try_match_against_orderbook 1 none true true
              (cpmm_price 1000 1000 true)
              [⟨7, true, AccountData.order ⟨3, 1, none, 3000, 500, 0, false, false⟩⟩]
              (100 - calculate_fee 100 0)).1.remaining_amount then
          calculate_shares_out 1000 1000
            (try_match_against_orderbook 1 none true true
              (cpmm_price 1000 1000 true)
              [⟨7, true, AccountData.order ⟨3, 1, none, 3000, 500, 0, false, false⟩⟩]
              (100 - calculate_fee 100 0)).1.remaining_amount true
         else 0) :=
  ⟨rfl, c10_matched_at_pool_price.1 1 9 ⟨0, 1000, 1000, 0, false, false, 0, 0, 0, 0, 0⟩
    ⟨9, 1, 0, 0⟩ [⟨7, true, AccountData.order ⟨3, 1, none, 3000, 500, 0, false, false⟩⟩]
    true 100 0 _ rfl⟩

/-! ## Claim C5 -/

theorem mapIdxFrom_length (f : Nat → Nat → Nat) :
    ∀ (l : List Nat) (s : Nat), (mapIdxFrom f s l).length = l.length := by
  intro l
  induction l with
  | nil => intro s; rfl
  | cons v vs ih => intro s; simp [mapIdxFrom, ih]

theorem mapIdxFrom_getD (f : Nat → Nat → Nat) :
    ∀ (l : List Nat) (s i : Nat), i < l.length →
      (mapIdxFrom f s l).getD i 0 = f (s + i) (l.getD i 0) := by
  intro l
  induction l with
  | nil => intro s i h; simp at h
  | cons v vs ih =>
    intro s i h
    cases i with
    | zero => simp [mapIdxFrom]
    | succ j =>
      simp only [mapIdxFrom, List.getD_cons_succ]
      rw [ih (s + 1) j (by simpa using h)]
      congr 1
      omega

theorem popcount16_pos (n : Nat) (hn : n ≠ 0) (hlt : n < 2 ^ 16) : 0 < popcount16 n := by
  by_contra h
  push_neg at h
  have hall : ∀ i, i < 16 → n.testBit i = false := by
    intro i hi
    by_contra ht
    have hmem : i ∈ (List.range 16).filter n.testBit := by
      rw [List.mem_filter, List.mem_range]
      exact ⟨hi, by simpa using ht⟩
    have : 0 < popcount16 n := by
      unfold popcount16
      exact List.length_pos.mpr (List.ne_nil_of_mem hmem)
    omega
  apply hn
  apply Nat.eq_of_testBit_eq
  intro i
  rw [Nat.zero_testBit]
  rcases lt_or_ge i 16 with hi | hi
  · exact hall i hi
  · exact Nat.testBit_lt_two_pow (lt_of_lt_of_le hlt (Nat.pow_le_pow_right (by norm_num) hi))

/-- Claim C5: on an unresolved one-winner market, for a non-zero
`index_set` within `answer_count` bits and a position holding at least
`amount` NO on every set-bit answer, `convert_positions` burns exactly
`amount` NO from each set-bit answer, mints exactly
`amount - fee` YES to every cleared-bit answer below `answer_count`,
releases `(popcount - 1) * (amount - fee)` collateral, touches nothing
else; `amount = 0` succeeds as a no-op and `index_set = 0` is rejected
with `InvalidIndexSet`. -/
theorem c5_convert (m : MultiMarket) (pos : MultiPosition) (index_set amount : Nat)
    (h1 : m.is_one_winner = true) (h2 : m.resolved = false)
    (h3 : index_set ≠ 0) (h4 : index_set >>> m.answer_count = 0)
    (hac : m.answer_count ≤ 10)
    (hyl : pos.yes_shares.length = 10) (hnl : pos.no_shares.length = 10)
    (hheld : ∀ i, i < m.answer_count → index_set.testBit i = true →
      amount ≤ pos.no_shares.getD i 0) :
    convert_positions m pos index_set 0 = Except.ok ⟨pos, 0, 0⟩ ∧
    convert_positions m pos 0 amount = Except.error LikeliError.InvalidIndexSet ∧
    (0 < amount → ∃ res, convert_positions m pos index_set amount = Except.ok res ∧
      res.collateral_out =
        (popcount16 index_set - 1) * (amount - calculate_fee amount m.fee_bps) ∧
      res.fee_out = calculate_fee amount m.fee_bps * (popcount16 index_set - 1) ∧
      (∀ i, i < m.answer_count → index_set.testBit i = true →
        res.position.no_shares.getD i 0 = pos.no_shares.getD i 0 - amount ∧
        res.position.yes_shares.getD i 0 = pos.yes_shares.getD i 0) ∧
      (∀ i, i < m.answer_count → index_set.testBit i = false →
        res.position.yes_shares.getD i 0 =
          pos.yes_shares.getD i 0 + (amount - calculate_fee amount m.fee_bps) ∧
        res.position.no_shares.getD i 0 = pos.no_shares.getD i 0) ∧
      (∀ i, m.answer_count ≤ i →
        res.position.yes_shares.getD i 0 = pos.yes_shares.getD i 0 ∧
        res.position.no_shares.getD i 0 = pos.no_shares.getD i 0)) := by
  have hlt16 : index_set < 2 ^ 16 := by
    have h0 : index_set < 2 ^ m.answer_count := by
      have hdiv := Nat.shiftRight_eq_div_pow index_set m.answer_count
      rw [h4] at hdiv
      have h2p : 0 < 2 ^ m.answer_count := Nat.pos_pow_of_pos _ (by norm_num)
      exact (Nat.div_eq_zero_iff h2p).mp hdiv.symm
    calc index_set < 2 ^ m.answer_count := h0
      _ ≤ 2 ^ 16 := Nat.pow_le_pow_right (by norm_num) (by omega)
  have hpc := popcount16_pos index_set h3 hlt16
  refine ⟨?_, ?_, ?_⟩
  · unfold convert_positions
    rw [if_neg (by simp [h1]), if_neg (by simp [h2]), if_neg h3, if_neg (by simp [h4]),
      if_pos rfl]
  · unfold convert_positions
    rw [if_neg (by simp [h1]), if_neg (by simp [h2]), if_pos rfl]
  · intro hamt
    have hall : (List.range m.answer_count).all
        (fun i => !index_set.testBit i || decide (amount ≤ pos.no_shares.getD i 0)) = true := by
      rw [List.all_eq_true]
      intro i hi
      rw [List.mem_range] at hi
      by_cases hb : index_set.testBit i
      · simp only [hb, Bool.not_true, Bool.false_or, decide_eq_true_eq]
        exact hheld i hi hb
      · simp [hb]
    have hmain : convert_positions m pos index_set amount = Except.ok
        ⟨{ pos with
           no_shares := mapIdxFrom
             (fun i v => if i < m.answer_count ∧ index_set.testBit i then v - amount else v)
             0 pos.no_shares,
           yes_shares := mapIdxFrom
             (fun i v => if i < m.answer_count ∧ ¬index_set.testBit i then
               v + (amount - calculate_fee amount m.fee_bps) else v)
             0 pos.yes_shares },
         (popcount16 index_set - 1) * (amount - calculate_fee amount m.fee_bps),
         calculate_fee amount m.fee_bps * (popcount16 index_set - 1)⟩ := by
      unfold convert_positions
      rw [if_neg (by simp [h1]), if_neg (by simp [h2]), if_neg h3, if_neg (by simp [h4]),
        if_neg (by omega), if_neg (by omega), if_neg (not_not_intro hall)]
    refine ⟨_, hmain, rfl, rfl, ?_, ?_, ?_⟩
    · intro i hi hb
      constructor
      · rw [mapIdxFrom_getD _ _ _ _ (by omega)]
        simp [hb, hi]
      · rw [mapIdxFrom_getD _ _ _ _ (by omega)]
        simp [hb]
    · intro i hi hb
      constructor
      · rw [mapIdxFrom_getD _ _ _ _ (by omega)]
        simp [hb, hi]
      · rw [mapIdxFrom_getD _ _ _ _ (by omega)]
        simp [hb]
    · intro i hi
      rcases lt_or_ge i 10 with h10 | h10
      · constructor
        · rw [mapIdxFrom_getD _ _ _ _ (by omega)]
          simp only [Nat.zero_add]
          rw [if_neg (by omega)]
        · rw [mapIdxFrom_getD _ _ _ _ (by omega)]
          simp only [Nat.zero_add]
          rw [if_neg (by omega)]
      · constructor
        · rw [List.getD_eq_default _ _ (by rw [mapIdxFrom_length]; omega),
            List.getD_eq_default _ _ (by omega)]
        · rw [List.getD_eq_default _ _ (by rw [mapIdxFrom_length]; omega),
            List.getD_eq_default _ _ (by omega)]

/-- Witness for `c5_convert`: the 3-answer market, `index_set = 3`
(answers 0 and 1 set), `amount = 100`, fee 0 -- burns 100 NO from
answers 0 and 1, mints 100 YES to answer 2, releases 100 collateral. -/
theorem c5_convert_witness :
    (0 : Nat) < 100 ∧
    (∃ res, convert_positions ⟨0, 3, true, 0, 0, 0, false, 0⟩
        ⟨9, 1, [0, 0, 0, 0, 0, 0, 0, 0, 0, 0], [150, 130, 0, 0, 0, 0, 0, 0, 0, 0]⟩
        3 100 = Except.ok res ∧
      res.collateral_out = (popcount16 3 - 1) * (100 - calculate_fee 100 0) ∧
      res.fee_out = calculate_fee 100 0 * (popcount16 3 - 1) ∧
      (∀ i, i < 3 → Nat.testBit 3 i = true →
        res.position.no_shares.getD i 0 =
          ([150, 130, 0, 0, 0, 0, 0, 0, 0, 0] : List Nat).getD i 0 - 100 ∧
        res.position.yes_shares.getD i 0 =
          ([0, 0, 0, 0, 0, 0, 0, 0, 0, 0] : List Nat).getD i 0) ∧
      (∀ i, i < 3 → Nat.testBit 3 i = false →
        res.position.yes_shares.getD i 0 =
          ([0, 0, 0, 0, 0, 0, 0, 0, 0, 0] : List Nat).getD i 0 + (100 - calculate_fee 100 0) ∧
        res.position.no_shares.getD i 0 =
          ([150, 130, 0, 0, 0, 0, 0, 0, 0, 0] : List Nat).getD i 0) ∧
      (∀ i, 3 ≤ i →
        res.position.yes_shares.getD i 0 =
          ([0, 0, 0, 0, 0, 0, 0, 0, 0, 0] : List Nat).getD i 0 ∧
        res.position.no_shares.getD i 0 =
          ([150, 130, 0, 0, 0, 0, 0, 0, 0, 0] : List Nat).getD i 0)) :=
  ⟨by decide,
    (c5_convert ⟨0, 3, true, 0, 0, 0, false, 0⟩
      ⟨9, 1, [0, 0, 0, 0, 0, 0, 0, 0, 0, 0], [150, 130, 0, 0, 0, 0, 0, 0, 0, 0]⟩
      3 100 rfl rfl (by decide) (by decide) (by decide) rfl rfl
      (by decide)).2.2 (by decide)⟩

/-! ## Claim C1 -/

/-- Claim C1 counterexample: a two-answer one-winner market, traded
answer pools (yes 2, no 1) (YES probability 3333), sibling pools
(yes 1, no 2) (probability 6666).  The rebalancer computes the sibling
target 6667 but the pool-unit rounding fix `(3 * 1) tdiv 10000 = 0`
cannot move the sibling's 3-unit pool, so the sibling stays at 6666 and
the market-wide probability sum after `rebalance_market` (which runs
`sync_sibling_pools` with a complete valid sibling set) is 9999, not
exactly 10000. -/
theorem c1_rebalance_sum_counterexample :
    rebalance_market 5 1 ⟨0, 2, true, 0, 0, 0, false, 0⟩
      ⟨5, 0, 0, 2, 1, 0, false, none⟩
      [⟨2, true, AccountData.answer ⟨5, 1, 0, 1, 2, 0, false, none⟩⟩]
    = Except.ok [⟨2, true, AccountData.answer ⟨5, 1, 0, 1, 2, 0, false, none⟩⟩] ∧
    ansPrice ⟨5, 0, 0, 2, 1, 0, false, none⟩ +
      ansPrice ⟨5, 1, 0, 1, 2, 0, false, none⟩ = 9999 := ⟨rfl, rfl⟩

theorem updateLast_length (g : Answer → Answer) :
    ∀ l : List Answer, (updateLast g l).length = l.length
  | [] => rfl
  | [_] => rfl
  | _ :: b :: rest => by
    simp only [updateLast, List.length_cons]
    rw [updateLast_length g (b :: rest)]
    simp

theorem getLastD_mem : ∀ (l : List Answer) (d : Answer), l ≠ [] → l.getLastD d ∈ l
  | [], _, h => absurd rfl h
  | [a], d, _ => by simp
  | a :: b :: rest, d, _ => by
    have := getLastD_mem (b :: rest) a (by simp)
    simp only [List.getLastD_cons]
    right
    rw [List.getLastD_cons] at this
    exact this

theorem getLastD_map (f : Answer → Answer) :
    ∀ (l : List Answer) (d : Answer), l ≠ [] →
      (l.map f).getLastD d = f (l.getLastD d)
  | [], _, h => absurd rfl h
  | [a], d, _ => by simp
  | a :: b :: rest, d, _ => by
    simp only [List.map_cons, List.getLastD_cons]
    have := getLastD_map f (b :: rest) a (by simp)
    simp only [List.map_cons, List.getLastD_cons] at this
    exact this

theorem updateLast_map_sum (g : Answer → Answer) (f : Answer → Nat) :
    ∀ (l : List Answer) (d : Answer), l ≠ [] →
      ((updateLast g l).map f).sum + f (l.getLastD d) =
        (l.map f).sum + f (g (l.getLastD d))
  | [], _, h => absurd rfl h
  | [a], d, _ => by simp [updateLast, Nat.add_comm]
  | a :: b :: rest, d, _ => by
    simp only [updateLast, List.map_cons, List.sum_cons, List.getLastD_cons]
    have := updateLast_map_sum g f (b :: rest) a (by simp)
    rw [List.getLastD_cons] at this
    simp only [List.map_cons, List.sum_cons] at this
    omega

theorem int_tdiv_natCast (a b : Nat) :
    Int.tdiv (a : Int) (b : Int) = ((a / b : Nat) : Int) := rfl

theorem rebalanceSibling_spec (target oldSum : Nat) (a : Answer) (mlt : Nat)
    (hm : ansTotal a = 10000 * mlt) (hm0 : 0 < mlt) (hS : 0 < oldSum)
    (hle : ansPrice a ≤ oldSum) (ht : target ≤ 10000) :
    (rebalanceSibling target oldSum a).no_pool = mlt * (ansPrice a * target / oldSum) ∧
    ansTotal (rebalanceSibling target oldSum a) = 10000 * mlt ∧
    ansPrice (rebalanceSibling target oldSum a) = ansPrice a * target / oldSum := by
  have hqle : ansPrice a * target / oldSum ≤ 10000 := by
    calc ansPrice a * target / oldSum
        ≤ oldSum * target / oldSum := Nat.div_le_div_right (Nat.mul_le_mul_right _ hle)
      _ = target := Nat.mul_div_cancel_left _ hS
      _ ≤ 10000 := ht
  have hno : (rebalanceSibling target oldSum a).no_pool =
      mlt * (ansPrice a * target / oldSum) := by
    show ansTotal a * (if 0 < oldSum then ansPrice a * target / oldSum else target) / 10000 = _
    rw [if_pos hS, hm, Nat.mul_assoc]
    exact Nat.mul_div_cancel_left _ (by norm_num)
  have hnole : mlt * (ansPrice a * target / oldSum) ≤ 10000 * mlt := by
    calc mlt * (ansPrice a * target / oldSum) ≤ mlt * 10000 := Nat.mul_le_mul_left _ hqle
      _ = 10000 * mlt := Nat.mul_comm _ _
  have htot : ansTotal (rebalanceSibling target oldSum a) = 10000 * mlt := by
    show (ansTotal a - (rebalanceSibling target oldSum a).no_pool) +
      (rebalanceSibling target oldSum a).no_pool = _
    rw [hno, hm]
    exact Nat.sub_add_cancel hnole
  refine ⟨hno, htot, ?_⟩
  show (rebalanceSibling target oldSum a).no_pool * 10000 /
    ansTotal (rebalanceSibling target oldSum a) = _
  rw [hno, htot]
  rw [show mlt * (ansPrice a * target / oldSum) * 10000 =
    (10000 * mlt) * (ansPrice a * target / oldSum) by ring]
  exact Nat.mul_div_cancel_left _ (by positivity)

theorem applyRoundingFix_eq_self (target actualSum lastTotal : Nat) (a : Answer)
    (h : target = actualSum) : applyRoundingFix target actualSum lastTotal a = a := by
  unfold applyRoundingFix
  rw [if_neg]
  simp [h]

theorem applyRoundingFix_price (T A mx qx : Nat) (hmx : 0 < mx) (y : Answer)
    (hno : y.no_pool = mx * qx)
    (hAT : A < T) (herr : T - A < 100) (hbound : qx + (T - A) ≤ 10000) :
    ansPrice (applyRoundingFix T A (10000 * mx) y) = qx + (T - A) ∧
    ansTotal (applyRoundingFix T A (10000 * mx) y) = 10000 * mx := by
  have hcast : (T : Int) - (A : Int) = ((T - A : Nat) : Int) :=
    (Nat.cast_sub (le_of_lt hAT)).symm
  have hcond : 0 < ((T : Int) - (A : Int)).natAbs ∧ ((T : Int) - (A : Int)).natAbs < 100 := by
    rw [hcast, Int.natAbs_ofNat]
    omega
  have hadj : Int.tdiv (((10000 * mx : Nat) : Int) * ((T : Int) - (A : Int))) 10000 =
      ((mx * (T - A) : Nat) : Int) := by
    rw [hcast, ← Nat.cast_mul]
    rw [show (10000 : Int) = ((10000 : Nat) : Int) by norm_cast]
    rw [int_tdiv_natCast]
    congr 1
    rw [Nat.mul_assoc]
    exact Nat.mul_div_cancel_left _ (by norm_num)
  have hnewno : (max ((y.no_pool : Int) +
      Int.tdiv (((10000 * mx : Nat) : Int) * ((T : Int) - (A : Int))) 10000) 0).toNat =
      mx * (qx + (T - A)) := by
    rw [hadj, hno, ← Nat.cast_add, ← Nat.mul_add]
    rw [max_eq_left (by positivity)]
    exact Int.toNat_natCast _
  have hle : mx * (qx + (T - A)) ≤ 10000 * mx := by
    calc mx * (qx + (T - A)) ≤ mx * 10000 := Nat.mul_le_mul_left _ hbound
      _ = 10000 * mx := Nat.mul_comm _ _
  have hfix : applyRoundingFix T A (10000 * mx) y =
      { y with no_pool := mx * (qx + (T - A)),
               yes_pool := 10000 * mx - mx * (qx + (T - A)) } := by
    unfold applyRoundingFix
    rw [if_pos hcond]
    simp only [Nat.cast_mul]
    rw [show ((10000 : Nat) : Int) * (mx : Int) = (((10000 * mx : Nat)) : Int) by push_cast; ring]
    rw [hnewno]
  rw [hfix]
  constructor
  · show mx * (qx + (T - A)) * 10000 /
      ((10000 * mx - mx * (qx + (T - A))) + mx * (qx + (T - A))) = _
    rw [Nat.sub_add_cancel hle]
    rw [show mx * (qx + (T - A)) * 10000 = (10000 * mx) * (qx + (T - A)) by ring]
    exact Nat.mul_div_cancel_left _ (by positivity)
  · show (10000 * mx - mx * (qx + (T - A))) + mx * (qx + (T - A)) = _
    exact Nat.sub_add_cancel hle

theorem processedSiblings_sum (p : Nat) (sibs : List Answer)
    (hne : sibs ≠ []) (hlen : sibs.length ≤ 9)
    (hval : ∀ a ∈ sibs, 0 < ansTotal a ∧ 10000 ∣ ansTotal a)
    (hS : 0 < (sibs.map ansPrice).sum) (hp : p ≤ 10000) :
    ((processedSiblings p sibs).map ansPrice).sum = 10000 - p := by
  have hunfold : processedSiblings p sibs =
      updateLast (applyRoundingFix (10000 - p)
        (((sibs.map (rebalanceSibling (10000 - p) ((sibs.map ansPrice).sum))).map ansPrice).sum)
        (ansTotal (sibs.getLastD noAnswer)))
        (sibs.map (rebalanceSibling (10000 - p) ((sibs.map ansPrice).sum))) := by
    cases sibs with
    | nil => exact absurd rfl hne
    | cons a l => rfl
  set S := (sibs.map ansPrice).sum with hSdef
  set T := 10000 - p with hTdef
  have hT10000 : T ≤ 10000 := by omega
  set q : Answer → Nat := fun x => ansPrice x * T / S with hqdef
  have hmlt_pos : ∀ a ∈ sibs, ∀ mlt : Nat, ansTotal a = 10000 * mlt → 0 < mlt := by
    intro a ha mlt hm
    rcases Nat.eq_zero_or_pos mlt with h0 | h0
    · rw [h0, Nat.mul_zero] at hm
      have := (hval a ha).1
      omega
    · exact h0
  have hspec : ∀ a ∈ sibs, ansPrice (rebalanceSibling T S a) = q a := by
    intro a ha
    obtain ⟨mlt, hm⟩ := (hval a ha).2
    exact (rebalanceSibling_spec T S a mlt hm (hmlt_pos a ha mlt hm) hS
      (mem_le_map_sum ansPrice sibs a ha) hT10000).2.2
  have hmapq : (sibs.map (rebalanceSibling T S)).map ansPrice = sibs.map q := by
    rw [List.map_map]
    exact List.map_congr_left hspec
  set A := ((sibs.map (rebalanceSibling T S)).map ansPrice).sum with hAdef
  have hAq : A = (sibs.map q).sum := by rw [hAdef, hmapq]
  have hcompose : sibs.map q = (sibs.map ansPrice).map (fun v => v * T / S) := by
    rw [List.map_map]
    rfl
  have hA_le_T : A ≤ T := by
    rw [hAq, hcompose]
    calc ((sibs.map ansPrice).map (fun v => v * T / S)).sum
        ≤ (sibs.map ansPrice).sum * T / S := sum_div_le _ _ _
      _ = S * T / S := by rw [← hSdef]
      _ = T := Nat.mul_div_cancel_left _ hS
  have hT_lt : T < A + sibs.length := by
    have hlow := sum_div_lower (sibs.map ansPrice) T S hS
    rw [← hSdef, ← hcompose, ← hAq, List.length_map] at hlow
    have hpos_len : 0 < sibs.length := List.length_pos.mpr hne
    have hsucc : sibs.length * (S - 1) + sibs.length = sibs.length * S := by
      rw [show sibs.length * (S - 1) + sibs.length = sibs.length * ((S - 1) + 1) by ring]
      congr 1
      omega
    have h1 : S * T < S * (A + sibs.length) := by
      calc S * T ≤ S * A + sibs.length * (S - 1) := hlow
        _ < S * A + sibs.length * S := by omega
        _ = S * (A + sibs.length) := by ring
    exact Nat.lt_of_mul_lt_mul_left h1
  set x := sibs.getLastD noAnswer with hx
  have hxmem : x ∈ sibs := getLastD_mem sibs noAnswer hne
  obtain ⟨mlt, hm⟩ := (hval x hxmem).2
  have hm0 : 0 < mlt := hmlt_pos x hxmem mlt hm
  have hprocne : sibs.map (rebalanceSibling T S) ≠ [] := by
    cases sibs with
    | nil => exact absurd rfl hne
    | cons a l => simp
  have hgetlast : (sibs.map (rebalanceSibling T S)).getLastD noAnswer =
      rebalanceSibling T S x := getLastD_map _ sibs noAnswer hne
  have hsum_rel := updateLast_map_sum
    (applyRoundingFix T A (ansTotal x)) ansPrice
    (sibs.map (rebalanceSibling T S)) noAnswer hprocne
  rw [hgetlast] at hsum_rel
  have hpx : ansPrice (rebalanceSibling T S x) = q x := hspec x hxmem
  have hqx_le_A : q x ≤ A := by
    rw [hAq]
    exact mem_le_map_sum q sibs x hxmem
  rw [hunfold]
  rcases Nat.eq_or_lt_of_le hA_le_T with hAT | hAT
  · rw [applyRoundingFix_eq_self T A (ansTotal x) _ hAT.symm] at hsum_rel
    omega
  · have herr : T - A < 100 := by omega
    have hbound : q x + (T - A) ≤ 10000 := by omega
    have hno : (rebalanceSibling T S x).no_pool = mlt * q x :=
      (rebalanceSibling_spec T S x mlt hm hm0 hS
        (mem_le_map_sum ansPrice sibs x hxmem) hT10000).1
    have hfix := applyRoundingFix_price T A mlt (q x) hm0
      (rebalanceSibling T S x) hno hAT herr hbound
    rw [hm] at hsum_rel ⊢
    rw [hfix.1, hpx] at hsum_rel
    omega

theorem processedSiblings_length (p : Nat) (others : List Answer) :
    (processedSiblings p others).length = others.length := by
  cases others with
  | nil => rfl
  | cons a l =>
    show (updateLast _ _).length = _
    rw [updateLast_length, List.length_map]

theorem validSibling_answer (ck mk : Nat) (k : Nat) (a : Answer)
    (hk : k ≠ ck) (hmkt : a.market = mk) (htot : 0 < ansTotal a) :
    validSibling ck mk ⟨k, true, AccountData.answer a⟩ = some a := by
  unfold validSibling
  rw [if_neg hk]
  simp only [ite_true]
  rw [if_pos ⟨hmkt, htot⟩]

theorem extractSiblings_all_valid (ck mk : Nat) :
    ∀ sibs : List (Nat × Answer),
      (∀ x ∈ sibs, x.1 ≠ ck ∧ x.2.market = mk ∧ 0 < ansTotal x.2) →
      extractSiblings ck mk
        (sibs.map (fun x => ⟨x.1, true, AccountData.answer x.2⟩)) =
        sibs.map Prod.snd := by
  intro sibs
  induction sibs with
  | nil => intro _; rfl
  | cons y ys ih =>
    intro h
    have hy := h y (List.mem_cons_self _ _)
    have hv := validSibling_answer ck mk y.1 y.2 hy.1 hy.2.1 hy.2.2
    have ih' := ih (fun x hx => h x (List.mem_cons_of_mem _ hx))
    simp only [extractSiblings] at ih' ⊢
    simp only [List.map_cons, List.filterMap_cons, hv]
    rw [ih']

theorem answersOf_writeBack (ck mk : Nat) :
    ∀ (sibs : List (Nat × Answer)) (news : List Answer),
      (∀ x ∈ sibs, x.1 ≠ ck ∧ x.2.market = mk ∧ 0 < ansTotal x.2) →
      news.length = sibs.length →
      answersOf (writeBackSiblings ck mk
        (sibs.map (fun x => ⟨x.1, true, AccountData.answer x.2⟩)) news) = news := by
  intro sibs
  induction sibs with
  | nil =>
    intro news _ hlen
    have hnil : news = [] := List.eq_nil_of_length_eq_zero (by simpa using hlen)
    subst hnil
    rfl
  | cons y ys ih =>
    intro news h hlen
    have hy := h y (List.mem_cons_self _ _)
    have hv := validSibling_answer ck mk y.1 y.2 hy.1 hy.2.1 hy.2.2
    cases news with
    | nil => simp at hlen
    | cons n ns =>
      have ih' := ih ns (fun x hx => h x (List.mem_cons_of_mem _ hx)) (by simpa using hlen)
      simp only [List.map_cons]
      unfold writeBackSiblings
      rw [if_pos (by rw [hv]; rfl)]
      unfold answersOf at ih' ⊢
      simp only [List.filterMap_cons]
      rw [ih']

/-- Claim C1 (amended): for a one-winner MultiMarket, when the NegRisk
Rebalancer (`sync_sibling_pools`, as invoked with the traded answer's
implied YES probability) runs with a complete, valid sibling set
(2-10 answers, so at most 9 siblings) in which at least one sibling has
a non-zero implied probability and every sibling's total pool is a
multiple of 10000 pool units, the sum over all answers of the implied
YES probability `floor(no_pool*10000/(yes_pool+no_pool))` equals
exactly 10000 afterwards.  (The divisibility restriction is forced by
the counterexample: when a sibling's total is not a multiple of 10000,
the floor conversions of probabilities to pool units can leave the sum
short, e.g. at 9999.) -/
theorem c1_sync_sum_exact (traded : Answer) (sibs : List (Nat × Answer))
    (ck mk expected : Nat)
    (hne : sibs ≠ []) (hlen : sibs.length ≤ 9) (hexp : expected ≤ sibs.length)
    (hvalid : ∀ x ∈ sibs,
      x.1 ≠ ck ∧ x.2.market = mk ∧ 0 < ansTotal x.2 ∧ 10000 ∣ ansTotal x.2)
    (hS : 0 < (sibs.map (fun x => ansPrice x.2)).sum)
    (htr : 0 < ansTotal traded) :
    ∃ out, sync_sibling_pools ck (ansPrice traded) mk expected
        (sibs.map (fun x => ⟨x.1, true, AccountData.answer x.2⟩)) = Except.ok out ∧
      ansPrice traded + ((answersOf out).map ansPrice).sum = 10000 := by
  have hval3 : ∀ x ∈ sibs, x.1 ≠ ck ∧ x.2.market = mk ∧ 0 < ansTotal x.2 :=
    fun x hx => ⟨(hvalid x hx).1, (hvalid x hx).2.1, (hvalid x hx).2.2.1⟩
  have hext := extractSiblings_all_valid ck mk sibs hval3
  obtain ⟨y, ys, rfl⟩ : ∃ y ys, sibs = y :: ys := by
    cases sibs with
    | nil => exact absurd rfl hne
    | cons a l => exact ⟨a, l, rfl⟩
  have hsync : sync_sibling_pools ck (ansPrice traded) mk expected
      ((y :: ys).map (fun x => ⟨x.1, true, AccountData.answer x.2⟩)) =
      Except.ok (writeBackSiblings ck mk
        ((y :: ys).map (fun x => ⟨x.1, true, AccountData.answer x.2⟩))
        (processedSiblings (ansPrice traded) ((y :: ys).map Prod.snd))) := by
    unfold sync_sibling_pools
    rw [if_neg (by rw [List.length_map]; omega)]
    dsimp only
    rw [hext]
    rfl
  have hnews_len : (processedSiblings (ansPrice traded) ((y :: ys).map Prod.snd)).length =
      (y :: ys).length := by
    rw [processedSiblings_length, List.length_map]
  refine ⟨_, hsync, ?_⟩
  rw [answersOf_writeBack ck mk (y :: ys) _ hval3 hnews_len]
  have hval2 : ∀ a ∈ (y :: ys).map Prod.snd, 0 < ansTotal a ∧ 10000 ∣ ansTotal a := by
    intro a ha
    obtain ⟨x, hx, rfl⟩ := List.mem_map.mp ha
    exact ⟨(hvalid x hx).2.2.1, (hvalid x hx).2.2.2⟩
  have hS2 : 0 < (((y :: ys).map Prod.snd).map ansPrice).sum := by
    rw [List.map_map]
    exact hS
  rw [processedSiblings_sum (ansPrice traded) ((y :: ys).map Prod.snd)
    (by simp) (by rw [List.length_map]; exact hlen) hval2 hS2
    (ansPrice_le_10000 traded)]
  have := ansPrice_le_10000 traded
  omega

/-- Witness for `c1_sync_sum_exact`: traded answer 5000/5000 (price
5000), siblings 7000/3000 and 8000/2000 (both totals 10000); the
rebalanced probabilities are 3000 and 2000 and the market-wide sum is
exactly 10000. -/
theorem c1_sync_sum_exact_witness :
    ∃ out, sync_sibling_pools 1
        (ansPrice ⟨5, 0, 0, 5000, 5000, 0, false, none⟩) 5 2
        ([((2 : Nat), (⟨5, 1, 0, 7000, 3000, 0, false, none⟩ : Answer)),
          ((3 : Nat), (⟨5, 2, 0, 8000, 2000, 0, false, none⟩ : Answer))].map
          (fun x => ⟨x.1, true, AccountData.answer x.2⟩)) = Except.ok out ∧
      ansPrice ⟨5, 0, 0, 5000, 5000, 0, false, none⟩ +
        ((answersOf out).map ansPrice).sum = 10000 :=
  c1_sync_sum_exact ⟨5, 0, 0, 5000, 5000, 0, false, none⟩
    [((2 : Nat), (⟨5, 1, 0, 7000, 3000, 0, false, none⟩ : Answer)),
     ((3 : Nat), (⟨5, 2, 0, 8000, 2000, 0, false, none⟩ : Answer))]
    1 5 2 (by decide) (by decide) (by decide) (by decide) (by decide) (by decide)

end Likeli
